import Mathlib

/-!
# getty: terminal line bootstrap (`src/getty/main.c`)

A shallow embedding of the functions of `main.c` and the properties of its
specification.

Conventions of the embedding:

* a C string is the list of its characters before the terminating NUL
  (`cstr`); a pointer into a string or an array is an offset (`Nat`);
* `speed_t` and `unsigned long` values are natural numbers; the constants and
  sizes that come from the platform headers (`<termios.h>`, the ABI) are the
  fields of a `platform` record;
* functions of the C library (`strtoul`, `stpcpy`, `stpncpy`, `strrchr`,
  `getopt`) are modelled from their documented behaviour; what differs from
  one C library to the other (`cfsetispeed`, `cfsetospeed`, the reordering of
  `argv` by `getopt`) is a field of the `platform` record;
* a function that ends the process (`err`, `errx`, `exit`) yields an `exited`
  outcome carrying the status and what was written to the error stream.
-/

namespace Getty

/-- A C string: its characters before the terminating NUL. -/
abbrev cstr := List Char

/-- The type `struct termios`: the flag words, the control characters and the two speeds. -/
structure termios where
  c_iflag : Nat
  c_oflag : Nat
  c_cflag : Nat
  c_lflag : Nat
  c_cc : List Nat
  c_ispeed : Nat
  c_ospeed : Nat
deriving Repr, DecidableEq

/-- What the platform fixes: the symbolic speed constants of `<termios.h>`,
the largest `unsigned long`, `sizeof(struct baud_rate)`, the `O_NONBLOCK` bit
of `<fcntl.h>`, and of its C library what `cfsetispeed` and `cfsetospeed` make
of a `struct termios` and whether `getopt` reorders `argv` so that options
written after operands are still read as options. -/
structure platform where
  B0 : Nat
  B50 : Nat
  B75 : Nat
  B110 : Nat
  B134 : Nat
  B150 : Nat
  B200 : Nat
  B300 : Nat
  B600 : Nat
  B1200 : Nat
  B1800 : Nat
  B2400 : Nat
  B4800 : Nat
  B9600 : Nat
  B19200 : Nat
  B38400 : Nat
  ULONG_MAX : Nat
  sizeof_baud_rate : Nat
  O_NONBLOCK : Nat
  cfsetispeed : termios → Nat → termios
  cfsetospeed : termios → Nat → termios
  getopt_reorders : Bool

/-- The bits of a word outside a mask: `x & ~mask`. -/
def clear_bits (x mask : Nat) : Nat := x ^^^ (x &&& mask)

/-- The mask `CBAUD | CBAUDEX` of the speed bits in `c_cflag` on Linux. -/
def CBAUD : Nat := 4111

/-- The bit `IBAUD0` of `c_iflag` with which glibc marks an input speed of 0. -/
def IBAUD0 : Nat := 2147483648

/-- Whether glibc refuses a speed: `(speed & ~CBAUD) != 0` and the speed is not
one of `B57600` .. `B4000000`. -/
def glibc_speed_invalid (speed : Nat) : Bool :=
  clear_bits speed CBAUD ≠ 0 ∧ (speed < 4097 ∨ 4111 < speed)

/-- The `cfsetospeed` of glibc on Linux (before 2.42): it stores the speed in
`c_ospeed` and in the speed bits of `c_cflag`; a speed it refuses changes
nothing. -/
def glibc_cfsetospeed (t : termios) (speed : Nat) : termios :=
  if glibc_speed_invalid speed then t
  else { t with c_ospeed := speed, c_cflag := clear_bits t.c_cflag CBAUD ||| speed }

/-- The `cfsetispeed` of glibc on Linux (before 2.42): it stores the speed in
`c_ispeed`; for the speed 0 it sets `IBAUD0` in `c_iflag`, for any other it
clears `IBAUD0` and stores the speed in the speed bits of `c_cflag`, the bits
that also hold the output speed. -/
def glibc_cfsetispeed (t : termios) (speed : Nat) : termios :=
  if glibc_speed_invalid speed then t
  else if speed = 0 then { t with c_ispeed := speed, c_iflag := t.c_iflag ||| IBAUD0 }
  else { t with c_ispeed := speed, c_iflag := clear_bits t.c_iflag IBAUD0,
                c_cflag := clear_bits t.c_cflag CBAUD ||| speed }

/-- Linux on an LP64 machine with glibc (before 2.42): the speed constants of
`<bits/termios.h>`, a 64-bit `unsigned long`, a 16-byte `struct baud_rate`
(4-byte `speed_t`, 4 bytes of padding, 8-byte `unsigned long`),
`O_NONBLOCK` = 04000, the speed functions of glibc, and a `getopt` that
reorders `argv` (`POSIXLY_CORRECT` not set). -/
def linux_lp64 : platform :=
  { B0 := 0, B50 := 1, B75 := 2, B110 := 3, B134 := 4, B150 := 5, B200 := 6,
    B300 := 7, B600 := 8, B1200 := 9, B1800 := 10, B2400 := 11, B4800 := 12,
    B9600 := 13, B19200 := 14, B38400 := 15,
    ULONG_MAX := 18446744073709551615,
    sizeof_baud_rate := 16,
    O_NONBLOCK := 2048,
    cfsetispeed := glibc_cfsetispeed,
    cfsetospeed := glibc_cfsetospeed,
    getopt_reorders := true }

/-- What the C standard guarantees of every platform: an object has a
positive size and `unsigned long` holds at least 32 bits. -/
def platform.conforming (P : platform) : Prop :=
  0 < P.sizeof_baud_rate ∧ 4294967295 ≤ P.ULONG_MAX

instance (P : platform) : Decidable P.conforming := by
  unfold platform.conforming; infer_instance

/-- The type `struct baud_rate`: a speed constant and the rate it stands for. -/
structure baud_rate where
  speed : Nat
  lspeed : Nat
deriving Repr, DecidableEq

/-- The table `baudrates[]`. -/
def baudrates (P : platform) : List baud_rate :=
  [ { speed := P.B0,     lspeed := 0     },
    { speed := P.B50,    lspeed := 50    },
    { speed := P.B75,    lspeed := 75    },
    { speed := P.B110,   lspeed := 110   },
    { speed := P.B134,   lspeed := 134   },
    { speed := P.B150,   lspeed := 150   },
    { speed := P.B200,   lspeed := 200   },
    { speed := P.B300,   lspeed := 300   },
    { speed := P.B600,   lspeed := 600   },
    { speed := P.B1200,  lspeed := 1200  },
    { speed := P.B1800,  lspeed := 1800  },
    { speed := P.B2400,  lspeed := 2400  },
    { speed := P.B4800,  lspeed := 4800  },
    { speed := P.B9600,  lspeed := 9600  },
    { speed := P.B19200, lspeed := 19200 },
    { speed := P.B38400, lspeed := 38400 } ]

/-! ## `strtoul` -/

/-- The white space of the C locale. -/
def isspace (c : Char) : Bool :=
  c = ' ' ∨ c = '\t' ∨ c = '\n' ∨ c = '\x0b' ∨ c = '\x0c' ∨ c = '\r'

/-- A decimal digit. -/
def isdigit (c : Char) : Bool :=
  '0'.toNat ≤ c.toNat ∧ c.toNat ≤ '9'.toNat

/-- The number a sequence of decimal digits denotes. -/
def decimal_value (ds : List Char) : Nat :=
  ds.foldl (fun acc c => 10 * acc + (c.toNat - '0'.toNat)) 0

/-- What `strtoul` hands back: the converted value and the offset it stores
through `endptr`. -/
structure strtoul_result where
  value : Nat
  endptr : Nat
deriving Repr, DecidableEq

/-- The C library's `strtoul(nptr, &endptr, 10)`: skip white space, accept one
optional sign, convert the longest run of digits. Without a digit nothing is
consumed (`endptr = nptr`, value 0). A value past `ULONG_MAX` is `ULONG_MAX`;
a minus sign negates the value in the unsigned type. -/
def strtoul (P : platform) (nptr : cstr) : strtoul_result :=
  let ws := nptr.takeWhile isspace
  let s1 := nptr.dropWhile isspace
  let neg : Bool := s1.head? = some '-'
  let signlen : Nat := if s1.head? = some '-' ∨ s1.head? = some '+' then 1 else 0
  let ds := (s1.drop signlen).takeWhile isdigit
  if ds = [] then
    { value := 0, endptr := 0 }
  else
    let v := decimal_value ds
    { value :=
        if P.ULONG_MAX < v then P.ULONG_MAX
        else if neg then (P.ULONG_MAX + 1 - v) % (P.ULONG_MAX + 1)
        else v,
      endptr := ws.length + signlen + ds.length }

/-! ## `getty_speed` -/

/-- The end pointer of the scan, as an element offset from `baudrates`:
`baudrates + sizeof(baudrates) + sizeof(*baudrates)`. `sizeof` counts bytes
and pointer arithmetic counts elements. Forming the pointer is address
arithmetic; only a read through a pointer outside the array is a fault. -/
def baudratesend (P : platform) : Nat :=
  (baudrates P).length * P.sizeof_baud_rate + P.sizeof_baud_rate

/-- How a run of `getty_speed` ends: it returns (with the value then held by
`*speedp`), or it reads `baudrates[index]` past the end of the array, where
C defines no behaviour. -/
inductive speed_outcome where
  | returned (ret : Int) (speed : Nat)
  | out_of_bounds (index : Nat)
deriving Repr, DecidableEq

/-- How the `while` loop of `getty_speed` ends. -/
inductive scan_outcome where
  | stopped (current : Nat)
  | out_of_bounds (index : Nat)
deriving Repr, DecidableEq

/-- The loop `while(current != baudratesend && current->lspeed < lspeed) current++;`. -/
def getty_speed_scan (P : platform) (lspeed : Nat) (current : Nat) : scan_outcome :=
  if current = baudratesend P then .stopped current
  else
    match h : (baudrates P)[current]? with
    | none => .out_of_bounds current
    | some e =>
      if e.lspeed < lspeed then
        have : current < (baudrates P).length := by
          rcases Nat.lt_or_ge current (baudrates P).length with hlt | hge
          · exact hlt
          · rw [List.getElem?_eq_none hge] at h; cases h
        getty_speed_scan P lspeed (current + 1)
      else .stopped current
termination_by (baudrates P).length - current

/-- The function `getty_speed(speedstr, speedp)`; `speed` is `*speedp` at the call. -/
def getty_speed (P : platform) (speedstr : cstr) (speed : Nat) : speed_outcome :=
  let r := strtoul P speedstr
  let lspeed := r.value
  if r.endptr = speedstr.length ∧ r.endptr ≠ 0 then
    match getty_speed_scan P lspeed 0 with
    | .out_of_bounds i => .out_of_bounds i
    | .stopped current =>
      if current ≠ baudratesend P then
        match (baudrates P)[current]? with
        | none => .out_of_bounds current
        | some e =>
          if e.lspeed = lspeed then .returned 0 e.speed
          else .returned (-1) speed
      else .returned (-1) speed
  else .returned (-1) speed

/-- The three spellings of the optional sign. -/
def is_sign (sign : cstr) : Prop := sign = [] ∨ sign = ['+'] ∨ sign = ['-']

/-- The value `strtoul` returns for a sign and a run of digits. -/
def strtoul_value (P : platform) (sign ds : cstr) : Nat :=
  if P.ULONG_MAX < decimal_value ds then P.ULONG_MAX
  else if sign = ['-'] then (P.ULONG_MAX + 1 - decimal_value ds) % (P.ULONG_MAX + 1)
  else decimal_value ds

/-! ## Outcomes, diagnostics and system calls -/

/-- The type `struct getty_args`; a `logname` of `none` is the NULL pointer. -/
structure getty_args where
  logname : Option cstr
  path : cstr
  tty : cstr
  ispeed : Nat
  ospeed : Nat
deriving Repr, DecidableEq

/-- An argument of a format string. A string argument of `none` is the NULL
pointer or a pointer that does not designate a terminated string. -/
inductive fmt_arg where
  | str (s : Option cstr)
  | chr (c : Char)
  | int (n : Int)
deriving Repr, DecidableEq

/-- One message on the error stream: the function that printed it
(`err`, `errx`, `warnx`, `fprintf`), its format string and its arguments. -/
structure diagnostic where
  printer : String
  format : String
  args : List fmt_arg
deriving Repr, DecidableEq

/-- How a function ends: it returns, the process exits with a status after
the given messages, the process image is replaced by `execv`, or the run leaves
the behaviour C defines. -/
inductive final (α : Type) where
  | ok (a : α)
  | exited (status : Int) (stderr : List diagnostic)
  | replaced
  | undefined (why : String)
deriving Repr, DecidableEq

/-- An array of characters: each element holds a character (NUL is `'\x00'`)
or has never been written. -/
abbrev buffer := List (Option Char)

/-- The flags `getty_open` passes to `open`. -/
inductive open_flag where
  | O_RDWR
  | O_NOCTTY
  | O_NONBLOCK
deriving Repr, DecidableEq

/-- The calls into the operating system and the C library that act on the
process, with their arguments. -/
inductive syscall where
  | close (fd : Int)
  | openat (path : buffer) (flags : List open_flag)
  | isatty (fd : Int)
  | dup (fd : Int)
  | setvbuf_stdout_IONBF
  | getpgrp
  | tcgetsid (fd : Int)
  | ioctl_TIOCSCTTY (fd : Int) (arg : Int)
  | tcsetpgrp (fd : Int) (pgid : Int)
  | tcgetattr (fd : Int)
  | tcflush_TCIOFLUSH (fd : Int)
  | tcsetattr_TCSANOW (fd : Int) (t : termios)
  | fcntl_F_GETFL (fd : Int)
  | fcntl_F_SETFL (fd : Int) (flags : Int)
  | setenv (name : cstr) (value : cstr) (overwrite : Int)
  | execv (path : cstr) (argv : List (Option cstr))
deriving Repr, DecidableEq

/-- What the operating system answers to the calls of one run. -/
structure os_replies where
  open_ret : Int
  isatty_ret : Int
  dup_stdin_ret : Int
  dup_stdout_ret : Int
  getpgrp_ret : Int
  tcgetsid_ret : Int
  ioctl_ret : Int
  tcsetpgrp_ret : Int
  tcgetattr_ret : Option termios
  tcflush_ret : Int
  tcsetattr_ret : Int
  fcntl_getfl_ret : Int
  fcntl_setfl_ret : Int
  setenv_ret : Int
deriving Repr, DecidableEq

/-- A run in which every call succeeds: `open` returns descriptor 0, the two
`dup` return 1 and 2, the terminal already belongs to the process group, and
the driver reports a line at `B9600` (13 on Linux) in both directions. -/
def os_all_succeed : os_replies :=
  { open_ret := 0, isatty_ret := 1, dup_stdin_ret := 1, dup_stdout_ret := 2,
    getpgrp_ret := 7, tcgetsid_ret := 7, ioctl_ret := 0, tcsetpgrp_ret := 0,
    tcgetattr_ret := some { c_iflag := 1, c_oflag := 2, c_cflag := 3, c_lflag := 4,
                            c_cc := [5], c_ispeed := 13, c_ospeed := 13 },
    tcflush_ret := 0, tcsetattr_ret := 0, fcntl_getfl_ret := 2048, fcntl_setfl_ret := 0,
    setenv_ret := 0 }

/-- The calls a function made and how it ended. -/
structure run where
  calls : List syscall
  final : final Unit
deriving Repr, DecidableEq

def STDIN_FILENO : Int := 0

def STDOUT_FILENO : Int := 1

def STDERR_FILENO : Int := 2

/-! ## `getty_open` -/

/-- Store characters in consecutive elements of an array from offset `p` on;
`none` when a store falls outside the array. -/
def poke (b : buffer) (p : Nat) : List Char → Option buffer
  | [] => some b
  | c :: cs => if p < b.length then poke (b.set p (some c)) (p + 1) cs else none

/-- The C library's `stpcpy(dst + p, src)`: copy `src` with its terminator,
return the offset of the terminator written. -/
def stpcpy (dst : buffer) (p : Nat) (src : cstr) : Option (buffer × Nat) :=
  (poke dst p (src ++ ['\x00'])).map (fun b => (b, p + src.length))

/-- The C library's `stpncpy(dst + p, src, n)`: write exactly `n` characters,
those of `src` up to `n` of them and then NULs when `src` is shorter than `n`.
When `src` has `n` characters or more no terminator is written. -/
def stpncpy (dst : buffer) (p : Nat) (src : cstr) (n : Nat) : Option (buffer × Nat) :=
  (poke dst p (src.take n ++ List.replicate (n - src.length) '\x00')).map
    (fun b => (b, p + min n src.length))

/-- The string an array holds from its start: the characters before the first
NUL; `none` when an element never written or the end of the array comes first. -/
def c_string : buffer → Option cstr
  | [] => none
  | none :: _ => none
  | some c :: rest => if c = '\x00' then some [] else (c_string rest).map (fun s => c :: s)

/-- The array `teletype` of `getty_open` after
`stpncpy(stpcpy(teletype, "/dev/"), args->tty, namelen)`. -/
def getty_open_teletype (tty : cstr) : Option buffer :=
  let namelen := tty.length
  let teletype : buffer := List.replicate (6 + namelen) none
  match stpcpy teletype 0 "/dev/".toList with
  | none => none
  | some (teletype, p) => (stpncpy teletype p tty namelen).map (fun r => r.1)

/-- The function `getty_open`. -/
def getty_open (os : os_replies) (args : getty_args) : run :=
  match getty_open_teletype args.tty with
  | none => { calls := [], final := .undefined "write outside teletype" }
  | some teletype =>
    let calls := [syscall.close STDIN_FILENO, .close STDOUT_FILENO, .close STDERR_FILENO,
      .openat teletype [.O_RDWR, .O_NOCTTY, .O_NONBLOCK]]
    if os.open_ret < 0 then
      { calls := calls,
        final := .exited 1 [⟨"err", "open %s", [.str (c_string teletype)]⟩] }
    else
      let fd := os.open_ret
      let calls := calls ++ [.isatty fd]
      if os.isatty_ret = 0 then
        { calls := calls,
          final := .exited 1 [⟨"err", "isatty %s", [.str (c_string teletype)]⟩] }
      else
        let calls := calls ++ [.dup STDIN_FILENO]
        if os.dup_stdin_ret ≠ STDOUT_FILENO then
          { calls := calls,
            final := .exited 1
              [⟨"err", "Unable to setup stdout and stderr for %s", [.str (c_string teletype)]⟩] }
        else
          let calls := calls ++ [.dup STDOUT_FILENO]
          if os.dup_stdout_ret ≠ STDERR_FILENO then
            { calls := calls,
              final := .exited 1
                [⟨"err", "Unable to setup stdout and stderr for %s", [.str (c_string teletype)]⟩] }
          else
            { calls := calls ++ [.setvbuf_stdout_IONBF], final := .ok () }

/-! ## `getty_setup` -/

/-- The speed-override step of `getty_setup`:
`if(args->ispeed != 0) cfsetispeed(..); if(args->ospeed != 0) cfsetospeed(..);`. -/
def getty_setup_speeds (P : platform) (args : getty_args) (t : termios) : termios :=
  let t := if args.ispeed ≠ 0 then P.cfsetispeed t args.ispeed else t
  if args.ospeed ≠ 0 then P.cfsetospeed t args.ospeed else t

/-- The function `getty_setup`. -/
def getty_setup (P : platform) (os : os_replies) (args : getty_args) : run :=
  let pgid := os.getpgrp_ret
  let tcsid := os.tcgetsid_ret
  let force := tcsid = -1 ∨ tcsid ≠ pgid
  let calls := [syscall.getpgrp, .tcgetsid STDIN_FILENO] ++
    (if force then [syscall.ioctl_TIOCSCTTY STDIN_FILENO 1] else [])
  if force ∧ os.ioctl_ret ≠ 0 then
    { calls := calls,
      final := .exited 1
        [⟨"err", "Unable to set the controlling terminal to %s", [.str (some args.tty)]⟩] }
  else
    let calls := calls ++ [.tcsetpgrp STDIN_FILENO pgid]
    if os.tcsetpgrp_ret ≠ 0 then
      { calls := calls,
        final := .exited 1
          [⟨"err", "Unable to set %s process group to %d", [.str (some args.tty), .int pgid]⟩] }
    else
      let calls := calls ++ [.tcgetattr STDIN_FILENO]
      match os.tcgetattr_ret with
      | none => { calls := calls, final := .exited 1 [⟨"err", "tcgetattr", []⟩] }
      | some termios =>
        let termios := getty_setup_speeds P args termios
        let calls := calls ++ [.tcflush_TCIOFLUSH STDIN_FILENO]
        if os.tcflush_ret ≠ 0 then
          { calls := calls, final := .exited 1 [⟨"err", "tcflush", []⟩] }
        else
          let calls := calls ++ [.tcsetattr_TCSANOW STDIN_FILENO termios]
          if os.tcsetattr_ret ≠ 0 then
            { calls := calls, final := .exited 1 [⟨"err", "tcsetattr", []⟩] }
          else
            let calls := calls ++ [.fcntl_F_GETFL STDIN_FILENO]
            let flags := os.fcntl_getfl_ret
            if flags = -1 then
              { calls := calls, final := .exited 1 [⟨"err", "fcntl F_GETFL", []⟩] }
            else
              let calls := calls ++
                [.fcntl_F_SETFL STDIN_FILENO (Int.land flags (~~~(P.O_NONBLOCK : Int)))]
              if os.fcntl_setfl_ret = -1 then
                { calls := calls, final := .exited 1 [⟨"err", "fcntl F_SETFL", []⟩] }
              else
                { calls := calls, final := .ok () }

/-! ## `getty_execv` -/

/-- The C library's `strrchr(s, c)`: the offset of the last `c` in `s`, `none`
(the NULL pointer) when `s` has none. -/
def strrchr : cstr → Char → Option Nat
  | [], _ => none
  | a :: s, c =>
    match strrchr s c with
    | some i => some (i + 1)
    | none => if a = c then some 0 else none

/-- The `programname` of `getty_execv`: what follows the last `'/'` of the
path, the whole path when it has none. -/
def getty_execv_programname (path : cstr) : cstr :=
  match strrchr path '/' with
  | none => path
  | some i => path.drop (i + 1)

/-- The function `getty_execv`; `execv_fails` tells whether `execv` returns. -/
def getty_execv (os : os_replies) (execv_fails : Bool) (args : getty_args) : run :=
  let calls := [syscall.setenv "TERM".toList args.tty 1]
  if os.setenv_ret ≠ 0 then
    { calls := calls, final := .exited 1 [⟨"err", "setenv %s", [.str (some args.tty)]⟩] }
  else
    let programname := getty_execv_programname args.path
    let argv : List (Option cstr) :=
      match args.logname with
      | some logname => [some programname, some logname, none]
      | none => [some programname, none]
    let calls := calls ++ [.execv args.path argv]
    if execv_fails then
      { calls := calls, final := .exited 1 [⟨"err", "execv %s", [.str (some args.path)]⟩] }
    else
      { calls := calls, final := .replaced }

/-! ## `getopt` -/

/-- The variables of `getopt` and the array `argv` as `getopt` keeps it. The
array is `scanned ++ skipped ++ rest`: first the elements `getopt` has handled
(the program name, the options and their arguments), then the operands it has
passed over, which it moves behind the options it reads after them, then the
elements from `optind` on that it has not looked at. `optpos` is the offset of
the next option character inside the first element of `rest`, 0 before an
element is entered. -/
structure getopt_state where
  scanned : List cstr
  skipped : List cstr
  rest : List cstr
  optind : Nat
  optpos : Nat
  optarg : Option cstr
  optopt : Char
deriving Repr, DecidableEq

/-- The variables of `getopt` when the program starts: `optind` is 1 and
nothing but the program name lies before it. -/
def getopt_start (argv : List cstr) : getopt_state :=
  { scanned := argv.take 1, skipped := [], rest := argv.drop 1,
    optind := 1, optpos := 0, optarg := none, optopt := '?' }

/-- The array `argv` as `getopt` has left it. -/
def getopt_state.argv (g : getopt_state) : List cstr := g.scanned ++ g.skipped ++ g.rest

/-- An element of `argv` that is no option: it does not start with `'-'`, or
it is `-` alone. -/
def is_nonoption (w : cstr) : Bool := w.head? ≠ some '-' ∨ w.length = 1

/-- What an option string says of a character: `none` when it is no option,
`some true` when the option takes an argument, `some false` when it takes none. -/
def optstring_lookup (optstring : cstr) (c : Char) : Option Bool :=
  if c = ':' ∨ c = ';' then none
  else
    match optstring.dropWhile (fun d => d ≠ c) with
    | [] => none
    | _ :: rest => some (rest.head? = some ':')

/-- The part of `getopt` that handles the option character at offset `pos` of
the element `w`, the first of `rest`; `more` are the elements after it. An
element is left, and joins the scanned ones, with its last character. An
option that takes an argument takes what is left of its element or, when
nothing is left there, the next element; when there is none the result is
`':'` for an option string that starts with `':'`, `'?'` otherwise. -/
def getopt_short (optstring : cstr) (g : getopt_state) (w : cstr) (more : List cstr)
    (pos : Nat) : Option Char × getopt_state :=
  match w[pos]? with
  | none => (none, g)
  | some c =>
    let last : Bool := w.length ≤ pos + 1
    let g1 : getopt_state :=
      if last then
        { g with scanned := g.scanned ++ [w], rest := more, optind := g.optind + 1, optpos := 0 }
      else { g with optpos := pos + 1 }
    match optstring_lookup optstring c with
    | none => (some '?', { g1 with optopt := c })
    | some false => (some c, g1)
    | some true =>
      if last = false then
        (some c, { g with scanned := g.scanned ++ [w], rest := more, optind := g.optind + 1,
                          optpos := 0, optarg := some (w.drop (pos + 1)) })
      else
        match more with
        | a :: more1 =>
          (some c, { g with scanned := g.scanned ++ [w, a], rest := more1,
                            optind := g.optind + 2, optpos := 0, optarg := some a })
        | [] =>
          (some (if optstring.head? = some ':' then ':' else '?'), { g1 with optopt := c })

/-- The C library's `getopt(argc, argv, optstring)`; the result `none` is -1.
With no element at all it returns -1 at once. Before it enters an element, a
`getopt` that reorders passes over the operands in front of it; then it stops,
with -1, at the end of the array, at `--` (which it steps over, all that
follows being operands) and, when it does not reorder, at an operand. When it
stops, `optind` is the index of the first operand in the array as it then is,
the operands passed over included. -/
def getopt (reorders : Bool) (optstring : cstr) (g0 : getopt_state) :
    Option Char × getopt_state :=
  if g0.argv.length < 1 then (none, g0)
  else
    let g : getopt_state := { g0 with optarg := none }
    if g.optpos ≠ 0 then
      match g.rest with
      | [] => (none, g)
      | w :: more => getopt_short optstring g w more g.optpos
    else
      let g : getopt_state :=
        if reorders then
          { g with skipped := g.skipped ++ g.rest.takeWhile is_nonoption,
                   rest := g.rest.dropWhile is_nonoption,
                   optind := g.optind + (g.rest.takeWhile is_nonoption).length }
        else g
      match g.rest with
      | [] => (none, { g with optind := if g.skipped = [] then g.optind else g.scanned.length })
      | w :: more =>
        if w = ['-', '-'] then
          (none, { g with scanned := g.scanned ++ [w], skipped := g.skipped ++ more, rest := [],
                          optind := (g.scanned ++ [w]).length })
        else if is_nonoption w then (none, g)
        else getopt_short optstring g w more 1

/-! ## `getty_parse_args` -/

/-- The message and exit of `getty_usage`. -/
def getty_usage (gettyname : Option cstr) : diagnostic :=
  ⟨"fprintf", "usage: %s [-i speed] [-o speed] [-u logname] [-p path] [tty]\n",
    [.str gettyname]⟩

/-- The option string `getty_parse_args` passes to `getopt`. -/
def getty_optstring : cstr := ":i:o:u:p:".toList

/-- The initial value of `args` in `getty_parse_args`. -/
def getty_args_initial : getty_args :=
  { logname := none, path := "/bin/login".toList, tty := "tty".toList, ispeed := 0, ospeed := 0 }

/-- The `switch(c)` of the option loop: the configuration after a `break`, or
the way the process ends. -/
def getty_parse_switch (P : platform) (argv : List cstr) (c : Char) (g : getopt_state)
    (args : getty_args) : final getty_args :=
  if c = 'i' then
    match getty_speed P (g.optarg.getD []) args.ispeed with
    | .out_of_bounds _ => .undefined "read outside baudrates"
    | .returned ret speed =>
      if ret ≠ 0 then
        .exited 1 [⟨"errx", "Unable to parse input speed %s", [.str g.optarg]⟩]
      else .ok { args with ispeed := speed }
  else if c = 'o' then
    match getty_speed P (g.optarg.getD []) args.ospeed with
    | .out_of_bounds _ => .undefined "read outside baudrates"
    | .returned ret speed =>
      if ret ≠ 0 then
        .exited 1 [⟨"errx", "Unable to parse output speed %s", [.str g.optarg]⟩]
      else .ok { args with ospeed := speed }
  else if c = 'u' then .ok { args with logname := g.optarg }
  else if c = 'p' then .ok { args with path := g.optarg.getD [] }
  else if c = ':' then
    .exited 1 [⟨"warnx", "-%c: Missing argument", [.chr g.optopt]⟩, getty_usage argv.head?]
  else
    .exited 1 [⟨"warnx", "Unknown argument -%c", [.chr c]⟩, getty_usage argv.head?]

set_option linter.unusedVariables false in
/-- The loop `while((c = getopt(argc, argv, ":i:o:u:p:")) != -1) switch(c) ..`:
the configuration and the variables of `getopt` when `getopt` returns -1, or
the way the process ends. -/
def getty_parse_options (P : platform) (args : getty_args) (g : getopt_state) :
    final (getty_args × getopt_state) :=
  match h : getopt P.getopt_reorders getty_optstring g with
  | (none, g1) => .ok (args, g1)
  | (some c, g1) =>
    match hs : getty_parse_switch P g.argv c g1 args with
    | .ok args1 => getty_parse_options P args1 g1
    | .exited status stderr => .exited status stderr
    | .replaced => .replaced
    | .undefined why => .undefined why
termination_by g.rest.length
decreasing_by
  have hc : c = 'i' ∨ c = 'o' ∨ c = 'u' ∨ c = 'p' := by
    unfold getty_parse_switch at hs
    by_contra hn
    simp only [not_or] at hn
    rw [if_neg hn.1, if_neg hn.2.1, if_neg hn.2.2.1, if_neg hn.2.2.2] at hs
    split at hs <;> cases hs
  have hl : optstring_lookup getty_optstring c = some true := by
    rcases hc with hc | hc | hc | hc <;> subst hc <;> decide
  have hne : c ≠ ':' ∧ c ≠ '?' := by
    rcases hc with hc | hc | hc | hc <;> subst hc <;> decide
  have hshort : ∀ (g2 : getopt_state) (w : cstr) (more : List cstr) (pos : Nat),
      getopt_short getty_optstring g2 w more pos = (some c, g1) →
      g1.rest.length < (w :: more).length := by
    intro g2 w more pos hsh
    unfold getopt_short at hsh
    cases hc0 : w[pos]? with
    | none => rw [hc0] at hsh; cases hsh
    | some c0 =>
      rw [hc0] at hsh
      simp only at hsh
      cases hl0 : optstring_lookup getty_optstring c0 with
      | none =>
        rw [hl0] at hsh
        simp only [Prod.mk.injEq, Option.some.injEq] at hsh
        exact absurd hsh.1.symm hne.2
      | some b =>
        rw [hl0] at hsh
        cases b with
        | false =>
          simp only [Prod.mk.injEq, Option.some.injEq] at hsh
          rw [hsh.1, hl] at hl0
          cases hl0
        | true =>
          simp only at hsh
          by_cases h4 : decide (w.length ≤ pos + 1) = false
          · rw [if_pos h4] at hsh
            simp only [Prod.mk.injEq, Option.some.injEq] at hsh
            rw [← hsh.2]
            simp
          · rw [if_neg h4] at hsh
            cases more with
            | cons a more1 =>
              simp only [Prod.mk.injEq, Option.some.injEq] at hsh
              rw [← hsh.2]
              simp only [List.length_cons]
              omega
            | nil =>
              simp only [Prod.mk.injEq, Option.some.injEq] at hsh
              have h1 := hsh.1
              split at h1
              · exact absurd h1.symm hne.1
              · exact absurd h1.symm hne.2
  unfold getopt at h
  by_cases h0 : g.argv.length < 1
  · rw [if_pos h0] at h; cases h
  · rw [if_neg h0] at h
    simp only at h
    by_cases hp : g.optpos ≠ 0
    · rw [if_pos hp] at h
      cases hr : g.rest with
      | nil => rw [hr] at h; cases h
      | cons w more =>
        rw [hr] at h
        exact hshort _ w more _ h
    · rw [if_neg hp] at h
      cases hre : P.getopt_reorders with
      | false =>
        rw [hre] at h
        simp only [Bool.false_eq_true, if_false] at h
        cases hr : g.rest with
        | nil => rw [hr] at h; cases h
        | cons w more =>
          rw [hr] at h
          simp only at h
          by_cases h1 : w = ['-', '-']
          · rw [if_pos h1] at h; cases h
          · rw [if_neg h1] at h
            by_cases h2 : is_nonoption w = true
            · rw [if_pos h2] at h; cases h
            · rw [if_neg h2] at h
              exact hshort _ w more _ h
      | true =>
        rw [hre] at h
        simp only [if_true] at h
        cases hr : g.rest.dropWhile is_nonoption with
        | nil => rw [hr] at h; cases h
        | cons w more =>
          rw [hr] at h
          simp only at h
          have hle : (w :: more).length ≤ g.rest.length := by
            rw [← hr]
            exact (List.dropWhile_sublist _).length_le
          by_cases h1 : w = ['-', '-']
          · rw [if_pos h1] at h; cases h
          · rw [if_neg h1] at h
            by_cases h2 : is_nonoption w = true
            · rw [if_pos h2] at h; cases h
            · rw [if_neg h2] at h
              exact lt_of_lt_of_le (hshort _ w more _ h) hle

/-- The function `getty_parse_args(argc, argv)`; `argc` is the length of `argv`.
After the loop `argv` is the array as `getopt` has left it. -/
def getty_parse_args (P : platform) (argv : List cstr) : final getty_args :=
  match getty_parse_options P getty_args_initial (getopt_start argv) with
  | .ok (args, g) =>
    let n : Int := (argv.length : Int) - (g.optind : Int)
    if n = 2 then
      .ok { args with path := g.argv.getD (g.optind + 1) [], tty := g.argv.getD g.optind [] }
    else if n = 1 then
      .ok { args with tty := g.argv.getD g.optind [] }
    else if n = 0 then
      .ok args
    else
      .exited 1 [getty_usage argv.head?]
  | .exited status stderr => .exited status stderr
  | .replaced => .replaced
  | .undefined why => .undefined why

/-! ## `main` -/

/-- The function `main`. -/
def getty_main (P : platform) (os : os_replies) (execv_fails : Bool) (argv : List cstr) : run :=
  match getty_parse_args P argv with
  | .exited status stderr => { calls := [], final := .exited status stderr }
  | .replaced => { calls := [], final := .replaced }
  | .undefined why => { calls := [], final := .undefined why }
  | .ok args =>
    let r1 := getty_open os args
    match r1.final with
    | .ok _ =>
      let r2 := getty_setup P os args
      match r2.final with
      | .ok _ =>
        let r3 := getty_execv os execv_fails args
        match r3.final with
        | .ok _ => { calls := r1.calls ++ r2.calls ++ r3.calls, final := .ok () }
        | f => { calls := r1.calls ++ r2.calls ++ r3.calls, final := f }
      | f => { calls := r1.calls ++ r2.calls, final := f }
    | f => { calls := r1.calls, final := f }

/-! ## Command lines

The shape of the command lines the theorems speak of. Options, each a flag
with its argument, written in one element (`-i9600`) or in two (`-i 9600`),
come with operands between them where `getopt` reorders `argv`; then an
optional `--`; then the remaining elements. The positional arguments are the
operands and the remaining elements. -/

/-- An option of a command line: its flag, its argument, and whether the two
are written in one element of `argv`. -/
structure cl_option where
  flag : Char
  arg : cstr
  joined : Bool
deriving Repr, DecidableEq

/-- The elements of `argv` that spell an option. -/
def cl_option.words (o : cl_option) : List cstr :=
  if o.joined then ['-' :: o.flag :: o.arg] else [['-', o.flag], o.arg]

/-- The elements of `argv` that spell a list of options. -/
def cl_words : List cl_option → List cstr
  | [] => []
  | o :: os => o.words ++ cl_words os

/-- An option getty knows, whose argument, when written in the same element
as the flag, is not empty. -/
def cl_option.well_formed (o : cl_option) : Prop :=
  (o.flag = 'i' ∨ o.flag = 'o' ∨ o.flag = 'u' ∨ o.flag = 'p') ∧ (o.joined = true → o.arg ≠ [])

instance (o : cl_option) : Decidable o.well_formed := by
  unfold cl_option.well_formed; infer_instance

/-- What stands on a command line before `--` or the end: an option, or an
operand written among the options. -/
inductive cl_item where
  | opt (o : cl_option)
  | operand (w : cstr)
deriving Repr, DecidableEq

/-- The elements of `argv` that spell an item. -/
def cl_item.words : cl_item → List cstr
  | .opt o => o.words
  | .operand w => [w]

/-- A well-formed option, or an operand that is no option. -/
def cl_item.well_formed : cl_item → Prop
  | .opt o => o.well_formed
  | .operand w => is_nonoption w = true

instance (it : cl_item) : Decidable it.well_formed := by
  cases it <;> unfold cl_item.well_formed <;> infer_instance

/-- The elements of `argv` that spell a list of items. -/
def cl_line : List cl_item → List cstr
  | [] => []
  | it :: items => it.words ++ cl_line items

/-- The options among the items, in order. -/
def cl_options : List cl_item → List cl_option
  | [] => []
  | .opt o :: items => o :: cl_options items
  | .operand _ :: items => cl_options items

/-- The operands among the items, in order. -/
def cl_operands : List cl_item → List cstr
  | [] => []
  | .opt _ :: items => cl_operands items
  | .operand w :: items => w :: cl_operands items

/-- The optional `--` between the items and the remaining elements. -/
def cl_separator (dashdash : Bool) : List cstr := if dashdash then [['-', '-']] else []

/-- A reading of a command line as items, an optional `--` and remaining
elements that agrees with the way `getopt` scans it. The items are well
formed. Operands stand among the options only where `getopt` reorders.
Without `--` nothing remains where `getopt` reorders (every operand is an
item), and where it does not, the first remaining element is no option. -/
def cl_readable (reorders : Bool) (items : List cl_item) (dashdash : Bool)
    (tail : List cstr) : Prop :=
  (∀ it ∈ items, it.well_formed) ∧
  (reorders = false → cl_operands items = []) ∧
  (dashdash = false →
    (reorders = true → tail = []) ∧ (∀ x ∈ tail.take 1, is_nonoption x = true))

instance (reorders : Bool) (items : List cl_item) (dashdash : Bool) (tail : List cstr) :
    Decidable (cl_readable reorders items dashdash tail) := by
  unfold cl_readable; infer_instance

/-- The argument of the last option with the given flag. -/
def last_arg (flag : Char) : List cl_option → Option cstr
  | [] => none
  | o :: os =>
    match last_arg flag os with
    | some a => some a
    | none => if o.flag = flag then some o.arg else none

/-- A rate string `getty_speed` accepts: it returns 0 and stores `speed`,
whatever the speed held before. -/
def rate_accepted (P : platform) (r : cstr) (speed : Nat) : Prop :=
  ∀ before, getty_speed P r before = .returned 0 speed

/-- A rate string `getty_speed` refuses: it returns -1 and leaves the speed
held before. -/
def rate_refused (P : platform) (r : cstr) : Prop :=
  ∀ before, getty_speed P r before = .returned (-1) before

/-- The options whose rate, for `-i` and `-o`, `getty_speed` accepts. -/
def rates_accepted (P : platform) (opts : List cl_option) : Prop :=
  ∀ o ∈ opts, o.flag = 'i' ∨ o.flag = 'o' → ∃ speed, rate_accepted P o.arg speed

/-- The configuration after one option has gone through the `switch`. -/
def apply_option (P : platform) (args : getty_args) (o : cl_option) : final getty_args :=
  getty_parse_switch P [] o.flag
    { scanned := [], skipped := [], rest := [], optind := 0, optpos := 0,
      optarg := some o.arg, optopt := '?' } args

/-- The configuration after a list of options has gone through the `switch`,
in order, or the first way the process ends. -/
def apply_options (P : platform) (args : getty_args) : List cl_option → final getty_args
  | [] => .ok args
  | o :: os =>
    match apply_option P args o with
    | .ok a => apply_options P a os
    | f => f

/-- The process ends inside `getty_parse_args` with status 1 and the given
messages on the error stream, and `main` has made no call by then. -/
def exits_in_parse_args (P : platform) (os : os_replies) (execv_fails : Bool)
    (argv : List cstr) (stderr : List diagnostic) : Prop :=
  getty_parse_args P argv = .exited 1 stderr ∧
    getty_main P os execv_fails argv = { calls := [], final := .exited 1 stderr }

/-! # Theorems -/

/-! ## Facts about the table and the scan -/

theorem baudrates_length (P : platform) : (baudrates P).length = 16 := rfl

theorem baudrates_lspeed (P : platform) :
    (baudrates P).map baud_rate.lspeed =
      [0, 50, 75, 110, 134, 150, 200, 300, 600, 1200, 1800, 2400, 4800, 9600, 19200, 38400] := rfl

theorem baudrates_sorted (P : platform) :
    ((baudrates P).map baud_rate.lspeed).Pairwise (fun a b => a < b) := by
  rw [baudrates_lspeed]; decide

theorem baudratesend_eq (P : platform) : baudratesend P = 17 * P.sizeof_baud_rate := by
  unfold baudratesend; rw [baudrates_length]; ring

theorem baudratesend_gt (P : platform) (hP : P.conforming) : 16 < baudratesend P := by
  have := hP.1
  rw [baudratesend_eq]; omega

theorem baudrates_lt_of_lt (P : platform) {j k : Nat} {a b : baud_rate}
    (hj : (baudrates P)[j]? = some a) (hk : (baudrates P)[k]? = some b) (hjk : j < k) :
    a.lspeed < b.lspeed := by
  have hs := baudrates_sorted P
  rw [List.pairwise_iff_getElem] at hs
  obtain ⟨hj1, hj2⟩ := List.getElem?_eq_some_iff.mp hj
  obtain ⟨hk1, hk2⟩ := List.getElem?_eq_some_iff.mp hk
  have := hs j k (by simpa using hj1) (by simpa using hk1) hjk
  simpa [hj2, hk2] using this

theorem scan_step (P : platform) (lspeed current : Nat) :
    getty_speed_scan P lspeed current =
      if current = baudratesend P then .stopped current
      else
        match (baudrates P)[current]? with
        | none => .out_of_bounds current
        | some e =>
          if e.lspeed < lspeed then getty_speed_scan P lspeed (current + 1)
          else .stopped current := by
  rw [getty_speed_scan]
  split
  · rfl
  · split
    · rename_i h; rw [h]
    · rename_i e h; simp only [h]

/-- The scan walks over every entry below the requested rate. -/
theorem scan_skip (P : platform) (hP : P.conforming) (lspeed k : Nat) (hk : k ≤ 16)
    (hlow : ∀ j e, j < k → (baudrates P)[j]? = some e → e.lspeed < lspeed) :
    ∀ d c, c + d = k → getty_speed_scan P lspeed c = getty_speed_scan P lspeed k := by
  intro d
  induction d with
  | zero => intro c hc; simp at hc; rw [hc]
  | succ d ih =>
    intro c hc
    have hend := baudratesend_gt P hP
    have hc16 : c < (baudrates P).length := by rw [baudrates_length]; omega
    rw [scan_step, if_neg (by omega)]
    rw [List.getElem?_eq_getElem hc16]
    simp only
    rw [if_pos (hlow c _ (by omega) (List.getElem?_eq_getElem hc16))]
    exact ih (c + 1) (by omega)

/-- A rate no larger than that of entry `k` and larger than those of the
entries before it stops the scan at `k`. -/
theorem scan_stops_at (P : platform) (hP : P.conforming) (lspeed k : Nat) (e : baud_rate)
    (hk : (baudrates P)[k]? = some e) (hle : lspeed ≤ e.lspeed)
    (hlow : ∀ j a, j < k → (baudrates P)[j]? = some a → a.lspeed < lspeed) :
    getty_speed_scan P lspeed 0 = .stopped k := by
  have hk16 : k < 16 := by
    have := (List.getElem?_eq_some_iff.mp hk).1
    simpa [baudrates_length] using this
  have hend := baudratesend_gt P hP
  rw [scan_skip P hP lspeed k (by omega) hlow k 0 (by omega)]
  rw [scan_step, if_neg (by omega), hk]
  simp only
  rw [if_neg (by omega)]

/-- A rate above every entry of the table makes the scan read `baudrates[16]`. -/
theorem scan_past_table (P : platform) (hP : P.conforming) (lspeed : Nat) (h : 38400 < lspeed) :
    getty_speed_scan P lspeed 0 = .out_of_bounds 16 := by
  have hend := baudratesend_gt P hP
  have hlow : ∀ j e, j < 16 → (baudrates P)[j]? = some e → e.lspeed < lspeed := by
    intro j e hj hje
    obtain ⟨h1, h2⟩ := List.getElem?_eq_some_iff.mp hje
    have hmem : e.lspeed ∈ (baudrates P).map baud_rate.lspeed :=
      List.mem_map_of_mem _ (h2 ▸ List.getElem_mem h1)
    rw [baudrates_lspeed] at hmem
    simp at hmem
    omega
  rw [scan_skip P hP lspeed 16 (by omega) hlow 16 0 (by omega)]
  rw [scan_step, if_neg (by omega)]
  rfl

/-! ## Facts about `strtoul` -/

theorem takeWhile_append_stop {p : Char → Bool} (l r : List Char)
    (hl : ∀ c ∈ l, p c = true) (hr : ∀ c, r.head? = some c → p c = false) :
    (l ++ r).takeWhile p = l := by
  induction l with
  | nil =>
    cases r with
    | nil => rfl
    | cons a r => simp [List.takeWhile, hr a rfl]
  | cons a l ih =>
    have ha : p a = true := hl a (List.mem_cons_self a l)
    simp only [List.cons_append, List.takeWhile_cons, ha, if_true]
    rw [ih (fun c hc => hl c (List.mem_cons_of_mem a hc))]

theorem dropWhile_append_stop {p : Char → Bool} (l r : List Char)
    (hl : ∀ c ∈ l, p c = true) (hr : ∀ c, r.head? = some c → p c = false) :
    (l ++ r).dropWhile p = r := by
  induction l with
  | nil =>
    cases r with
    | nil => rfl
    | cons a r => simp [List.dropWhile, hr a rfl]
  | cons a l ih =>
    have ha : p a = true := hl a (List.mem_cons_self a l)
    simp only [List.cons_append, List.dropWhile_cons, ha, if_true]
    rw [ih (fun c hc => hl c (List.mem_cons_of_mem a hc))]

theorem isdigit_not_isspace (c : Char) (h : isdigit c = true) : isspace c = false := by
  unfold isdigit at h
  unfold isspace
  simp only [decide_eq_true_eq] at h
  simp only [decide_eq_false_iff_not]
  rintro (h1 | h1 | h1 | h1 | h1 | h1) <;> subst h1 <;> revert h <;> decide

theorem isdigit_not_sign (c : Char) (h : isdigit c = true) : c ≠ '-' ∧ c ≠ '+' := by
  unfold isdigit at h
  simp only [decide_eq_true_eq] at h
  constructor <;> (intro h1; subst h1; revert h; decide)

/-- The result of `strtoul` on white space, an optional sign, digits and a rest
that does not continue any of them. -/
theorem strtoul_shape (P : platform) (ws sign ds g : cstr)
    (hws : ∀ c ∈ ws, isspace c = true) (hsign : is_sign sign)
    (hds : ∀ c ∈ ds, isdigit c = true)
    (hg : ∀ c, g.head? = some c → isdigit c = false)
    (hg0 : sign = [] → ds = [] → ∀ c, g.head? = some c → isspace c = false ∧ c ≠ '-' ∧ c ≠ '+') :
    strtoul P (ws ++ (sign ++ (ds ++ g))) =
      if ds = [] then { value := 0, endptr := 0 }
      else { value := strtoul_value P sign ds,
             endptr := ws.length + sign.length + ds.length } := by
  have hhead : ∀ c, (sign ++ (ds ++ g)).head? = some c → isspace c = false := by
    intro c hc
    rcases hsign with h | h | h
    · subst h
      cases ds with
      | nil => exact (hg0 rfl rfl c (by simpa using hc)).1
      | cons d ds =>
        simp at hc; subst hc
        exact isdigit_not_isspace _ (hds _ (List.mem_cons_self _ _))
    · subst h; simp at hc; subst hc; decide
    · subst h; simp at hc; subst hc; decide
  have htake : ((ds ++ g).takeWhile isdigit) = ds := takeWhile_append_stop ds g hds hg
  unfold strtoul
  simp only [takeWhile_append_stop ws _ hws hhead, dropWhile_append_stop ws _ hws hhead]
  rcases hsign with h | h | h
  · subst h
    have hnos : ((ds ++ g).head? = some '-') = False ∧ ((ds ++ g).head? = some '+') = False := by
      cases ds with
      | nil =>
        cases g with
        | nil => simp
        | cons c g =>
          have := hg0 rfl rfl c rfl
          simp only [List.nil_append, List.head?_cons, Option.some.injEq, eq_iff_iff, iff_false]
          exact ⟨this.2.1, this.2.2⟩
      | cons d ds =>
        have := isdigit_not_sign d (hds _ (List.mem_cons_self _ _))
        simp only [List.cons_append, List.head?_cons, Option.some.injEq, eq_iff_iff, iff_false]
        exact this
    simp only [List.nil_append, hnos.1, hnos.2, or_self, if_false, List.drop_zero, htake,
      decide_False, strtoul_value, List.length_nil, Nat.add_zero]
    simp
  · subst h
    simp only [List.cons_append, List.nil_append, List.head?_cons, Option.some.injEq,
      or_true, if_true, List.drop_succ_cons, List.drop_zero, htake, strtoul_value, List.length_cons,
      List.length_nil]
    simp
  · subst h
    simp only [List.cons_append, List.nil_append, List.head?_cons, Option.some.injEq,
      true_or, if_true, List.drop_succ_cons, List.drop_zero, htake, strtoul_value, List.length_cons,
      List.length_nil]
    simp

/-- On a non-empty run of digits `strtoul` consumes the whole string. -/
theorem strtoul_digits (P : platform) (ds : cstr) (hne : ds ≠ [])
    (hds : ∀ c ∈ ds, isdigit c = true) :
    strtoul P ds =
      { value := if P.ULONG_MAX < decimal_value ds then P.ULONG_MAX else decimal_value ds,
        endptr := ds.length } := by
  have h := strtoul_shape P [] [] ds [] (by simp) (Or.inl rfl) hds (by simp)
    (fun _ h => absurd h hne)
  simp only [List.nil_append, List.append_nil, if_neg hne, List.length_nil, Nat.zero_add] at h
  rw [h]
  simp [strtoul_value]

/-! ## Facts about `getty_speed` -/

theorem baudrates_lspeed_le (P : platform) {k : Nat} {e : baud_rate}
    (hk : (baudrates P)[k]? = some e) : e.lspeed ≤ 38400 := by
  obtain ⟨h1, h2⟩ := List.getElem?_eq_some_iff.mp hk
  have hmem : e.lspeed ∈ (baudrates P).map baud_rate.lspeed :=
    List.mem_map_of_mem _ (h2 ▸ List.getElem_mem h1)
  rw [baudrates_lspeed] at hmem
  simp at hmem
  omega

/-- A run of digits whose value is the rate of entry `k` selects that entry. -/
theorem getty_speed_digits_match (P : platform) (hP : P.conforming) (ds : cstr) (hne : ds ≠ [])
    (hds : ∀ c ∈ ds, isdigit c = true) (k : Nat) (e : baud_rate)
    (hk : (baudrates P)[k]? = some e) (hv : decimal_value ds = e.lspeed) (speed : Nat) :
    getty_speed P ds speed = .returned 0 e.speed := by
  have hle := baudrates_lspeed_le P hk
  have hmax := hP.2
  have hk16 : k < 16 := by
    have := (List.getElem?_eq_some_iff.mp hk).1
    simpa [baudrates_length] using this
  have hend := baudratesend_gt P hP
  have hlen : ds.length ≠ 0 := by
    intro h; exact hne (List.length_eq_zero.mp h)
  unfold getty_speed
  simp only [strtoul_digits P ds hne hds, hv, if_neg (show ¬ P.ULONG_MAX < e.lspeed by omega)]
  rw [if_pos ⟨trivial, hlen⟩]
  rw [scan_stops_at P hP e.lspeed k e hk (le_refl _)
    (fun j a hj hja => baudrates_lt_of_lt P hja hk hj)]
  simp only
  rw [if_pos (by omega), hk]
  simp

/-- A run of digits whose value lies below the rate of entry `k`, above the
rates of the entries before it, is refused. -/
theorem getty_speed_digits_between (P : platform) (hP : P.conforming) (ds : cstr) (hne : ds ≠ [])
    (hds : ∀ c ∈ ds, isdigit c = true) (k : Nat) (e : baud_rate)
    (hk : (baudrates P)[k]? = some e) (hv : decimal_value ds < e.lspeed)
    (hlow : ∀ j a, j < k → (baudrates P)[j]? = some a → a.lspeed < decimal_value ds)
    (speed : Nat) :
    getty_speed P ds speed = .returned (-1) speed := by
  have hle := baudrates_lspeed_le P hk
  have hmax := hP.2
  have hk16 : k < 16 := by
    have := (List.getElem?_eq_some_iff.mp hk).1
    simpa [baudrates_length] using this
  have hend := baudratesend_gt P hP
  have hlen : ds.length ≠ 0 := by
    intro h; exact hne (List.length_eq_zero.mp h)
  unfold getty_speed
  simp only [strtoul_digits P ds hne hds,
    if_neg (show ¬ P.ULONG_MAX < decimal_value ds by omega)]
  rw [if_pos ⟨trivial, hlen⟩]
  rw [scan_stops_at P hP (decimal_value ds) k e hk (le_of_lt hv) hlow]
  simp only
  rw [if_pos (by omega), hk]
  simp only
  rw [if_neg (by omega)]

/-- A run of digits whose value is above every rate of the table makes
`getty_speed` read past the table. -/
theorem getty_speed_digits_above (P : platform) (hP : P.conforming) (ds : cstr) (hne : ds ≠ [])
    (hds : ∀ c ∈ ds, isdigit c = true) (hv : 38400 < decimal_value ds) (speed : Nat) :
    getty_speed P ds speed = .out_of_bounds 16 := by
  have hmax := hP.2
  have hlen : ds.length ≠ 0 := by
    intro h; exact hne (List.length_eq_zero.mp h)
  unfold getty_speed
  simp only [strtoul_digits P ds hne hds]
  rw [if_pos ⟨trivial, hlen⟩]
  rw [scan_past_table P hP _ (by split <;> omega)]

/-- A string `strtoul` does not consume to its end, or of which it consumes
nothing, is refused and the speed is left as it was. -/
theorem getty_speed_unparsed (P : platform) (speedstr : cstr) (speed : Nat)
    (h : (strtoul P speedstr).endptr ≠ speedstr.length ∨ (strtoul P speedstr).endptr = 0) :
    getty_speed P speedstr speed = .returned (-1) speed := by
  unfold getty_speed
  simp only
  rw [if_neg]
  rintro ⟨h1, h2⟩
  rcases h with h | h
  · exact h h1
  · exact h2 h

/-- The decimal spelling of a rate of the table is a non-empty run of digits
with that rate as its value. -/
theorem table_rate_digits (P : platform) (e : baud_rate) (he : e ∈ baudrates P) :
    Nat.toDigits 10 e.lspeed ≠ [] ∧
      (∀ c ∈ Nat.toDigits 10 e.lspeed, isdigit c = true) ∧
      decimal_value (Nat.toDigits 10 e.lspeed) = e.lspeed := by
  have hmem : e.lspeed ∈ (baudrates P).map baud_rate.lspeed := List.mem_map_of_mem _ he
  rw [baudrates_lspeed] at hmem
  simp only [List.mem_cons, List.mem_singleton, List.not_mem_nil, or_false] at hmem
  rcases hmem with h | h | h | h | h | h | h | h | h | h | h | h | h | h | h | h <;>
    rw [h] <;> decide

/-- The decimal spelling of a rate of the table is accepted, with the speed
constant of that rate. -/
theorem table_rate_accepted (P : platform) (hP : P.conforming) (e : baud_rate)
    (he : e ∈ baudrates P) : rate_accepted P (Nat.toDigits 10 e.lspeed) e.speed := by
  intro speed
  obtain ⟨k, hk16, hk⟩ := List.getElem_of_mem he
  have hk' : (baudrates P)[k]? = some e := by
    rw [List.getElem?_eq_getElem hk16, hk]
  have hfacts := table_rate_digits P e he
  exact getty_speed_digits_match P hP _ hfacts.1 hfacts.2.1 k e hk' hfacts.2.2 speed

/-- C1. For every rate of the baud table, `getty_speed` called with the decimal
spelling of the rate returns 0 and stores the speed constant the table pairs
with that rate. -/
theorem getty_speed_table_rate (P : platform) (hP : P.conforming) (e : baud_rate)
    (he : e ∈ baudrates P) (speed : Nat) :
    getty_speed P (Nat.toDigits 10 e.lspeed) speed = .returned 0 e.speed :=
  table_rate_accepted P hP e he speed

/-- C1, at the rate 9600 on Linux. -/
theorem getty_speed_table_rate_witness :
    linux_lp64.conforming ∧ (⟨13, 9600⟩ : baud_rate) ∈ baudrates linux_lp64 ∧
      getty_speed linux_lp64 "9600".toList 7 = .returned 0 13 :=
  ⟨by decide, by decide,
    getty_speed_table_rate linux_lp64 (by decide) ⟨13, 9600⟩ (by decide) 7⟩

/-- A string `strtoul` consumes to its end, with the rate of entry `k` as its
value, selects that entry. -/
theorem getty_speed_of_match (P : platform) (hP : P.conforming) (speedstr : cstr)
    (hne : speedstr ≠ []) (k : Nat) (e : baud_rate) (hk : (baudrates P)[k]? = some e)
    (hv : strtoul P speedstr = { value := e.lspeed, endptr := speedstr.length }) (speed : Nat) :
    getty_speed P speedstr speed = .returned 0 e.speed := by
  have hk16 : k < 16 := by
    have := (List.getElem?_eq_some_iff.mp hk).1
    simpa [baudrates_length] using this
  have hend := baudratesend_gt P hP
  have hlen : speedstr.length ≠ 0 := by
    intro h; exact hne (List.length_eq_zero.mp h)
  unfold getty_speed
  simp only [hv]
  rw [if_pos ⟨trivial, hlen⟩]
  rw [scan_stops_at P hP e.lspeed k e hk (le_refl _)
    (fun j a hj hja => baudrates_lt_of_lt P hja hk hj)]
  simp only
  rw [if_pos (by omega), hk]
  simp

/-- C2, at the failing input: with the rate string `38401`, one above the last
entry of the table, `getty_speed` does not return -1; its scan runs off the
table and reads `baudrates[16]`. -/
theorem getty_speed_above_table_reads_past_end :
    getty_speed linux_lp64 "38401".toList 7 = .out_of_bounds 16 :=
  getty_speed_digits_above linux_lp64 (by decide) _ (by decide) (by decide) (by decide) 7

/-- C3, as stated, fails: the string `+9600` has no leading digit, yet
`getty_speed` returns 0 on it and overwrites the speed (7 before the call)
with `B9600`. -/
theorem getty_speed_sign_accepted :
    "+9600".toList.head? = some '+' ∧ isdigit '+' = false ∧
      getty_speed linux_lp64 "+9600".toList 7 = .returned 0 13 :=
  ⟨by decide, by decide,
    getty_speed_of_match linux_lp64 (by decide) _ (by decide) 13 ⟨13, 9600⟩ (by decide)
      (by decide) 7⟩

/-- C3, amended. A rate string made of the white space `strtoul` skips, an
optional sign, the run of digits that follows and a rest that does not start
with a digit (nor, when there is neither sign nor digit, with white space or a
sign) is refused, the speed left exactly as it was, when the run of digits is
empty (as in the empty string) or the rest is not empty (trailing garbage). -/
theorem getty_speed_malformed (P : platform) (speed : Nat) (ws sign ds g : cstr)
    (hws : ∀ c ∈ ws, isspace c = true) (hsign : is_sign sign)
    (hds : ∀ c ∈ ds, isdigit c = true)
    (hg : ∀ c, g.head? = some c → isdigit c = false)
    (hg0 : sign = [] → ds = [] → ∀ c, g.head? = some c → isspace c = false ∧ c ≠ '-' ∧ c ≠ '+')
    (hbad : ds = [] ∨ g ≠ []) :
    getty_speed P (ws ++ (sign ++ (ds ++ g))) speed = .returned (-1) speed := by
  apply getty_speed_unparsed
  rw [strtoul_shape P ws sign ds g hws hsign hds hg hg0]
  by_cases hd : ds = []
  · right; rw [if_pos hd]
  · left
    rw [if_neg hd]
    rcases hbad with h | h
    · exact absurd h hd
    · have : 0 < g.length := List.length_pos.mpr h
      simp only [List.length_append]
      omega

/-- C3, amended, at the empty string, at `abc` and at `9600x`. -/
theorem getty_speed_malformed_witness :
    getty_speed linux_lp64 [] 7 = .returned (-1) 7 ∧
      getty_speed linux_lp64 "abc".toList 7 = .returned (-1) 7 ∧
      getty_speed linux_lp64 "9600x".toList 7 = .returned (-1) 7 :=
  ⟨getty_speed_malformed linux_lp64 7 [] [] [] [] (by decide) (Or.inl rfl)
      (by decide) (by decide) (by decide) (Or.inl rfl),
    getty_speed_malformed linux_lp64 7 [] [] [] "abc".toList (by decide) (Or.inl rfl)
      (by decide) (by decide) (by decide) (Or.inl rfl),
    getty_speed_malformed linux_lp64 7 [] [] "9600".toList "x".toList (by decide) (Or.inl rfl)
      (by decide) (by decide) (by decide) (Or.inr (by decide))⟩

/-- C10, at the failing input: on Linux the end pointer of the scan is element
272, not 16, and with the rate string `115200` the scan reads `baudrates[16]`,
one past the last of the 16 entries. -/
theorem getty_speed_scan_leaves_table :
    (baudrates linux_lp64).length = 16 ∧ baudratesend linux_lp64 = 272 ∧
      getty_speed_scan linux_lp64 115200 0 = .out_of_bounds 16 ∧
      getty_speed linux_lp64 "115200".toList 0 = .out_of_bounds 16 :=
  ⟨rfl, by decide, scan_past_table linux_lp64 (by decide) _ (by decide),
    getty_speed_digits_above linux_lp64 (by decide) _ (by decide) (by decide) (by decide) 0⟩

/-! ## `getty_open` -/

theorem poke_over (cs : List Char) :
    ∀ (a b c : buffer), b.length = cs.length →
      poke (a ++ (b ++ c)) a.length cs = some (a ++ (cs.map some ++ c)) := by
  induction cs with
  | nil =>
    intro a b c hb
    have : b = [] := List.length_eq_zero.mp hb
    subst this
    rfl
  | cons x cs ih =>
    intro a b c hb
    cases b with
    | nil => simp at hb
    | cons y b =>
      simp only [List.length_cons, Nat.add_right_cancel_iff] at hb
      have hlt : a.length < (a ++ (y :: b ++ c)).length := by
        simp only [List.length_append, List.length_cons]; omega
      simp only [poke, if_pos hlt]
      have hset : (a ++ (y :: b ++ c)).set a.length (some x) = (a ++ [some x]) ++ (b ++ c) := by
        simp
      rw [hset]
      have hlen : a.length + 1 = (a ++ [some x]).length := by simp
      rw [hlen, ih (a ++ [some x]) b c hb]
      simp

/-- For every non-empty line name the array `teletype` ends up with the
characters of `/dev/` and of the name, followed by one element that was never
written. -/
theorem getty_open_teletype_eq (tty : cstr) (hne : tty ≠ []) :
    getty_open_teletype tty = some (("/dev/".toList ++ tty).map some ++ [none]) := by
  obtain ⟨n, hn⟩ : ∃ n, tty.length = n + 1 := by
    cases tty with
    | nil => exact absurd rfl hne
    | cons t ts => exact ⟨ts.length, rfl⟩
  have h1 : poke (List.replicate (6 + tty.length) none) 0 ("/dev/".toList ++ ['\x00']) =
      some (("/dev/".toList ++ ['\x00']).map some ++ List.replicate tty.length none) := by
    have := poke_over ("/dev/".toList ++ ['\x00']) [] (List.replicate 6 none)
      (List.replicate tty.length none) (by decide)
    simp only [List.nil_append, List.length_nil] at this
    rw [← this, ← List.replicate_add]
  have h2 : poke (("/dev/".toList ++ ['\x00']).map some ++ List.replicate tty.length none) 5
      tty = some ("/dev/".toList.map some ++ (tty.map some ++ [none])) := by
    have := poke_over tty ("/dev/".toList.map some) (some '\x00' :: List.replicate n none)
      [none] (by simp [hn])
    have hl : ("/dev/".toList.map some : buffer).length = 5 := by decide
    rw [hl] at this
    rw [← this, hn]
    congr 1
    simp [List.replicate_succ']
  unfold getty_open_teletype stpcpy stpncpy
  have htake : List.take tty.length tty ++ List.replicate (tty.length - tty.length) '\x00' = tty := by
    simp
  have hp : 0 + "/dev/".toList.length = 5 := by decide
  simp only [h1, Option.map_some', htake, hp, h2]
  simp

/-- C4, at the failing input: for the line name `ttyS0` the array `teletype`
holds the ten characters of `/dev/ttyS0` and then an element that was never
written; no terminator is stored, so the array passed to `open` holds no
terminated string. -/
theorem getty_open_teletype_unterminated :
    getty_open_teletype "ttyS0".toList = some ("/dev/ttyS0".toList.map some ++ [none]) ∧
      (getty_open_teletype "ttyS0".toList).bind c_string = none ∧
      ∀ os args, args.tty = "ttyS0".toList →
        syscall.openat ("/dev/ttyS0".toList.map some ++ [none])
          [.O_RDWR, .O_NOCTTY, .O_NONBLOCK] ∈ (getty_open os args).calls := by
  refine ⟨by decide, by decide, ?_⟩
  intro os args h
  have ht : getty_open_teletype args.tty = some ("/dev/ttyS0".toList.map some ++ [none]) := by
    rw [h]; decide
  unfold getty_open
  rw [ht]
  simp only
  split
  · simp
  · split
    · simp
    · split
      · simp
      · split <;> simp

/-! ## `getty_execv` -/

theorem strrchr_none_of_not_mem (s : cstr) (c : Char) (h : c ∉ s) : strrchr s c = none := by
  induction s with
  | nil => rfl
  | cons a s ih =>
    have h1 : c ∉ s := fun hm => h (List.mem_cons_of_mem a hm)
    have h2 : a ≠ c := fun he => h (he ▸ List.mem_cons_self a s)
    simp [strrchr, ih h1, h2]

theorem strrchr_append_last (dir d : cstr) (c : Char) (h : c ∉ d) :
    strrchr (dir ++ c :: d) c = some dir.length := by
  induction dir with
  | nil => simp [strrchr, strrchr_none_of_not_mem d c h]
  | cons a dir ih => simp [strrchr, ih]

theorem programname_no_slash (path : cstr) (h : '/' ∉ path) :
    getty_execv_programname path = path := by
  unfold getty_execv_programname
  rw [strrchr_none_of_not_mem path '/' h]

theorem programname_last_segment (dir d : cstr) (h : '/' ∉ d) :
    getty_execv_programname (dir ++ '/' :: d) = d := by
  unfold getty_execv_programname
  rw [strrchr_append_last dir d '/' h]
  simp

/-- C5. When `setenv` succeeds, `getty_execv` calls `execv` with the program
path and the vector `[d, u, NULL]` when an identity `u` is configured, `[d, NULL]`
otherwise, where `d` is what follows the last `'/'` of the path, or the whole
path when it holds no `'/'`. -/
theorem getty_execv_argv (os : os_replies) (execv_fails : Bool) (args : getty_args)
    (d : cstr) (hset : os.setenv_ret = 0)
    (hd : (∃ dir, args.path = dir ++ '/' :: d ∧ '/' ∉ d) ∨ ('/' ∉ args.path ∧ d = args.path)) :
    (getty_execv os execv_fails args).calls =
      [.setenv "TERM".toList args.tty 1,
       .execv args.path
         (match args.logname with
          | some u => [some d, some u, none]
          | none => [some d, none])] := by
  have hp : getty_execv_programname args.path = d := by
    rcases hd with ⟨dir, h1, h2⟩ | ⟨h1, h2⟩
    · rw [h1]; exact programname_last_segment dir d h2
    · rw [h2]; exact programname_no_slash _ h1
  unfold getty_execv
  simp only [hset, ne_eq, not_true_eq_false, if_false, hp]
  cases execv_fails <;> cases args.logname <;> simp

/-- C5, with the path `/bin/login`, with the identity `alice` and without one. -/
theorem getty_execv_argv_witness :
    (getty_execv os_all_succeed false
        ⟨some "alice".toList, "/bin/login".toList, "tty".toList, 0, 0⟩).calls =
      [.setenv "TERM".toList "tty".toList 1,
       .execv "/bin/login".toList [some "login".toList, some "alice".toList, none]] ∧
    (getty_execv os_all_succeed false
        ⟨none, "/bin/login".toList, "tty".toList, 0, 0⟩).calls =
      [.setenv "TERM".toList "tty".toList 1,
       .execv "/bin/login".toList [some "login".toList, none]] :=
  ⟨getty_execv_argv os_all_succeed false
      ⟨some "alice".toList, "/bin/login".toList, "tty".toList, 0, 0⟩ "login".toList rfl
      (Or.inl ⟨"/bin".toList, by decide, by decide⟩),
    getty_execv_argv os_all_succeed false
      ⟨none, "/bin/login".toList, "tty".toList, 0, 0⟩ "login".toList rfl
      (Or.inl ⟨"/bin".toList, by decide, by decide⟩)⟩

/-! ## `getty_setup` -/

/-- C7. When the configuration holds 0 for both speeds, the speed-override step
returns the attributes `tcgetattr` delivered, every `tcsetattr` that
`getty_setup` issues commits exactly those attributes, and it does issue one
when the calls before it succeed. -/
theorem getty_setup_keeps_attributes (P : platform) (os : os_replies) (args : getty_args)
    (t : termios) (hi : args.ispeed = 0) (ho : args.ospeed = 0)
    (hget : os.tcgetattr_ret = some t) :
    getty_setup_speeds P args t = t ∧
      (∀ fd t', syscall.tcsetattr_TCSANOW fd t' ∈ (getty_setup P os args).calls → t' = t) ∧
      (os.ioctl_ret = 0 → os.tcsetpgrp_ret = 0 → os.tcflush_ret = 0 →
        syscall.tcsetattr_TCSANOW STDIN_FILENO t ∈ (getty_setup P os args).calls) := by
  have hs : getty_setup_speeds P args t = t := by
    unfold getty_setup_speeds
    simp [hi, ho]
  refine ⟨hs, ?_, ?_⟩
  · intro fd t' hmem
    unfold getty_setup at hmem
    simp only [hget, hs] at hmem
    split at hmem
    · split_ifs at hmem <;> simp at hmem
    · split at hmem
      · split_ifs at hmem <;> simp at hmem
      · split at hmem
        · split_ifs at hmem <;> simp at hmem
        · split at hmem
          · split_ifs at hmem <;> simp at hmem <;> exact hmem.2
          · split at hmem
            · split_ifs at hmem <;> simp at hmem <;> exact hmem.2
            · split at hmem
              · split_ifs at hmem <;> simp at hmem <;> exact hmem.2
              · split_ifs at hmem <;> simp at hmem <;> exact hmem.2
  · intro h1 h2 h3
    unfold getty_setup
    simp only [hget, hs, h1, h2, h3]
    simp only [ne_eq, not_true_eq_false, and_false, if_false]
    split
    · simp
    · split
      · simp
      · split <;> simp

/-! ## `getopt` with the option string of getty -/

theorem lookup_known (f : Char) (hf : f = 'i' ∨ f = 'o' ∨ f = 'u' ∨ f = 'p') :
    optstring_lookup getty_optstring f = some true := by
  rcases hf with h | h | h | h <;> subst h <;> decide

theorem lookup_unknown (c : Char) (hc : c ≠ 'i' ∧ c ≠ 'o' ∧ c ≠ 'u' ∧ c ≠ 'p') :
    optstring_lookup getty_optstring c = none := by
  obtain ⟨h1, h2, h3, h4⟩ := hc
  unfold optstring_lookup
  by_cases h0 : c = ':' ∨ c = ';'
  · rw [if_pos h0]
  · rw [if_neg h0]
    have e0 : (':' : Char) ≠ c := fun h => h0 (Or.inl h.symm)
    have e1 : ('i' : Char) ≠ c := fun h => h1 h.symm
    have e2 : ('o' : Char) ≠ c := fun h => h2 h.symm
    have e3 : ('u' : Char) ≠ c := fun h => h3 h.symm
    have e4 : ('p' : Char) ≠ c := fun h => h4 h.symm
    simp [getty_optstring, List.dropWhile, e0, e1, e2, e3, e4]

theorem argv_length_pos (g : getopt_state) (h : g.scanned ≠ []) : ¬ g.argv.length < 1 := by
  have : 0 < g.scanned.length := List.length_pos.mpr h
  simp only [getopt_state.argv, List.length_append]
  omega

/-- The first element of a well-formed option is read as an option. -/
theorem option_word (o : cl_option) (hwf : o.well_formed) :
    ∃ w ws, o.words = w :: ws ∧ is_nonoption w = false ∧ w ≠ ['-', '-'] := by
  obtain ⟨hf, _⟩ := hwf
  have hf2 : o.flag ≠ '-' := by rcases hf with h | h | h | h <;> rw [h] <;> decide
  unfold cl_option.words
  cases o.joined with
  | true => exact ⟨_, _, rfl, by simp [is_nonoption], by simp [hf2]⟩
  | false => exact ⟨_, _, rfl, by simp [is_nonoption], by simp [hf2]⟩

/-- Where nothing is to be passed over, `getopt` looks at the first element
left. -/
theorem getopt_front (re : Bool) (g : getopt_state) (hpos : g.optpos = 0)
    (hne : g.scanned ≠ []) (hhead : ∀ w ∈ g.rest.take 1, is_nonoption w = false) :
    getopt re getty_optstring g =
      match g.rest with
      | [] => (none, { g with optarg := none,
                              optind := if g.skipped = [] then g.optind else g.scanned.length })
      | w :: more =>
        if w = ['-', '-'] then
          (none, { g with optarg := none, scanned := g.scanned ++ [w],
                          skipped := g.skipped ++ more, rest := [],
                          optind := (g.scanned ++ [w]).length })
        else getopt_short getty_optstring { g with optarg := none } w more 1 := by
  have h0 := argv_length_pos g hne
  obtain ⟨scanned, skipped, rest, optind, optpos, optarg, optopt⟩ := g
  simp only at hpos hhead h0 ⊢
  subst hpos
  unfold getopt
  rw [if_neg h0]
  cases rest with
  | nil => cases re <;> simp
  | cons w more =>
    have hw : is_nonoption w = false := hhead w (by simp)
    cases re <;> simp [List.takeWhile, List.dropWhile, hw]

/-- In front of a well-formed option `getopt` returns its flag, with its
argument in `optarg`, and has taken its elements. -/
theorem getopt_at_option (re : Bool) (g : getopt_state) (o : cl_option) (more : List cstr)
    (hwf : o.well_formed) (hpos : g.optpos = 0) (hne : g.scanned ≠ [])
    (hrest : g.rest = o.words ++ more) :
    getopt re getty_optstring g =
      (some o.flag, { g with scanned := g.scanned ++ o.words, rest := more,
                             optind := g.optind + o.words.length, optpos := 0,
                             optarg := some o.arg }) := by
  obtain ⟨f, a, j⟩ := o
  obtain ⟨hf, hj⟩ := hwf
  simp only at hf hj
  have hf2 : f ≠ '-' := by rcases hf with h | h | h | h <;> rw [h] <;> decide
  have hl := lookup_known f hf
  cases j with
  | true =>
    obtain ⟨b, a', rfl⟩ : ∃ b a', a = b :: a' := by
      cases a with
      | nil => exact absurd rfl (hj rfl)
      | cons b a' => exact ⟨b, a', rfl⟩
    simp only [cl_option.words, if_true, List.singleton_append] at hrest
    rw [getopt_front re g hpos hne (by rw [hrest]; simp [is_nonoption]), hrest]
    simp [getopt_short, hl, hf2, cl_option.words]
  | false =>
    simp only [cl_option.words, Bool.false_eq_true, if_false, List.cons_append,
      List.nil_append] at hrest
    rw [getopt_front re g hpos hne (by rw [hrest]; simp [is_nonoption]), hrest]
    simp [getopt_short, hl, hf2, cl_option.words]

/-- A known flag alone in the last element: `getopt` returns `':'`. -/
theorem getopt_at_missing (re : Bool) (g : getopt_state) (f : Char)
    (hf : f = 'i' ∨ f = 'o' ∨ f = 'u' ∨ f = 'p') (hpos : g.optpos = 0) (hne : g.scanned ≠ [])
    (hrest : g.rest = [['-', f]]) :
    ∃ g1, getopt re getty_optstring g = (some ':', g1) ∧ g1.optopt = f := by
  have hf2 : f ≠ '-' := by rcases hf with h | h | h | h <;> rw [h] <;> decide
  have hl := lookup_known f hf
  have hh : getty_optstring.head? = some ':' := rfl
  rw [getopt_front re g hpos hne (by rw [hrest]; simp [is_nonoption]), hrest]
  simp [getopt_short, hl, hf2, hh]

/-- A character that is no flag of getty: `getopt` returns `'?'`. -/
theorem getopt_at_unknown (re : Bool) (g : getopt_state) (c : Char) (r : cstr)
    (more : List cstr) (hc : c ≠ 'i' ∧ c ≠ 'o' ∧ c ≠ 'u' ∧ c ≠ 'p')
    (hdd : ¬ (c = '-' ∧ r = [])) (hpos : g.optpos = 0) (hne : g.scanned ≠ [])
    (hrest : g.rest = ('-' :: c :: r) :: more) :
    ∃ g1, getopt re getty_optstring g = (some '?', g1) := by
  have hl := lookup_unknown c hc
  have hnd : ¬ ('-' :: c :: r = ['-', '-']) := by
    intro he
    simp only [List.cons.injEq, true_and] at he
    exact hdd he
  rw [getopt_front re g hpos hne (by rw [hrest]; simp [is_nonoption]), hrest]
  simp only [if_neg hnd, getopt_short, List.getElem?_cons_succ, List.getElem?_cons_zero, hl]
  exact ⟨_, rfl⟩

/-- At the element `--`: `getopt` returns -1, has stepped over it, and all
that follows joins the operands. -/
theorem getopt_at_dashdash (re : Bool) (g : getopt_state) (tail : List cstr)
    (hpos : g.optpos = 0) (hne : g.scanned ≠ []) (hrest : g.rest = ['-', '-'] :: tail) :
    getopt re getty_optstring g =
      (none, { g with optarg := none, scanned := g.scanned ++ [['-', '-']],
                      skipped := g.skipped ++ tail, rest := [],
                      optind := (g.scanned ++ [['-', '-']]).length }) := by
  rw [getopt_front re g hpos hne (by rw [hrest]; simp [is_nonoption]), hrest]
  simp

/-- With no element left: `getopt` returns -1. -/
theorem getopt_at_end (re : Bool) (g : getopt_state) (hpos : g.optpos = 0)
    (hne : g.scanned ≠ []) (hrest : g.rest = []) :
    getopt re getty_optstring g =
      (none, { g with optarg := none,
                      optind := if g.skipped = [] then g.optind else g.scanned.length }) := by
  rw [getopt_front re g hpos hne (by rw [hrest]; simp), hrest]

/-- A `getopt` that does not reorder returns -1 at an operand and stays. -/
theorem getopt_at_operand (g : getopt_state) (w : cstr) (more : List cstr)
    (hw : is_nonoption w = true) (hpos : g.optpos = 0) (hne : g.scanned ≠ [])
    (hrest : g.rest = w :: more) :
    getopt false getty_optstring g = (none, { g with optarg := none }) := by
  have hnd : w ≠ ['-', '-'] := by
    intro h; rw [h] at hw; simp [is_nonoption] at hw
  unfold getopt
  rw [if_neg (argv_length_pos g hne)]
  simp [hpos, hrest, hnd, hw]

/-- A `getopt` that reorders passes over an operand: it does what it does
with the operand already among those passed over. -/
theorem getopt_skip (g : getopt_state) (w : cstr) (more : List cstr)
    (hw : is_nonoption w = true) (hpos : g.optpos = 0) (hrest : g.rest = w :: more) :
    getopt true getty_optstring g =
      getopt true getty_optstring
        { g with skipped := g.skipped ++ [w], rest := more, optind := g.optind + 1 } := by
  unfold getopt
  have hlen : ({ g with skipped := g.skipped ++ [w], rest := more,
                        optind := g.optind + 1 } : getopt_state).argv.length = g.argv.length := by
    simp [getopt_state.argv, hrest]
  rw [hlen]
  by_cases h0 : g.argv.length < 1
  · exfalso
    simp only [getopt_state.argv, hrest, List.length_append, List.length_cons] at h0
    omega
  · rw [if_neg h0, if_neg h0]
    simp only [hpos, ne_eq, not_true_eq_false, if_false, if_true, hrest,
      List.takeWhile_cons, hw, List.dropWhile_cons, List.length_cons]
    simp only [List.append_assoc, List.singleton_append, Nat.add_assoc, Nat.add_comm 1]

/-! ## The option loop -/

theorem parse_options_step (P : platform) (args : getty_args) (g : getopt_state) :
    getty_parse_options P args g =
      match getopt P.getopt_reorders getty_optstring g with
      | (none, g1) => .ok (args, g1)
      | (some c, g1) =>
        match getty_parse_switch P g.argv c g1 args with
        | .ok args1 => getty_parse_options P args1 g1
        | .exited status stderr => .exited status stderr
        | .replaced => .replaced
        | .undefined why => .undefined why := by
  rw [getty_parse_options]
  split
  · rename_i g1 h; rw [h]
  · rename_i c g1 h
    rw [h]
    simp only
    split <;> rename_i hs <;> rw [hs]

/-- For a flag getty knows, the `switch` looks at `optarg` only. -/
theorem switch_known (P : platform) (argv : List cstr) (f : Char) (g : getopt_state)
    (args : getty_args) (hf : f = 'i' ∨ f = 'o' ∨ f = 'u' ∨ f = 'p') (a : cstr) (j : Bool)
    (ha : g.optarg = some a) :
    getty_parse_switch P argv f g args = apply_option P args ⟨f, a, j⟩ := by
  unfold apply_option getty_parse_switch
  rcases hf with h | h | h | h <;> subst h <;> simp [ha]

/-- Where `getopt` reorders, the loop in front of an operand does what it
does with the operand already passed over. -/
theorem parse_options_skip (P : platform) (hre : P.getopt_reorders = true) (args : getty_args)
    (g : getopt_state) (w : cstr) (more : List cstr) (hw : is_nonoption w = true)
    (hpos : g.optpos = 0) (hrest : g.rest = w :: more) :
    getty_parse_options P args g =
      getty_parse_options P args
        { g with skipped := g.skipped ++ [w], rest := more, optind := g.optind + 1 } := by
  have hargv : ({ g with skipped := g.skipped ++ [w], rest := more,
                         optind := g.optind + 1 } : getopt_state).argv = g.argv := by
    simp [getopt_state.argv, hrest]
  rw [parse_options_step P args g,
    parse_options_step P args { g with skipped := g.skipped ++ [w], rest := more,
                                       optind := g.optind + 1 }]
  rw [hargv, hre, ← getopt_skip g w more hw hpos hrest]

theorem cl_line_length (items : List cl_item) :
    (cl_line items).length = (cl_words (cl_options items)).length + (cl_operands items).length := by
  induction items with
  | nil => rfl
  | cons it items ih =>
    cases it with
    | opt o => simp only [cl_line, cl_item.words, cl_options, cl_words, cl_operands,
        List.length_append, ih]; omega
    | operand w => simp only [cl_line, cl_item.words, cl_options, cl_operands,
        List.length_append, List.length_cons, List.length_nil, ih]; omega

/-- The loop, started in front of well-formed items, puts the options through
the `switch` in order and passes over the operands. -/
theorem parse_options_run (P : platform) (items : List cl_item) :
    ∀ (more : List cstr) (args : getty_args) (g : getopt_state),
      g.optpos = 0 → g.scanned ≠ [] → g.rest = cl_line items ++ more →
      (∀ it ∈ items, it.well_formed) →
      (P.getopt_reorders = true ∨ cl_operands items = []) →
      match apply_options P args (cl_options items) with
      | .ok a =>
        ∃ g1, getty_parse_options P args g = getty_parse_options P a g1 ∧
          g1.scanned = g.scanned ++ cl_words (cl_options items) ∧
          g1.skipped = g.skipped ++ cl_operands items ∧ g1.rest = more ∧
          g1.optind = g.optind + (cl_line items).length ∧ g1.optpos = 0
      | .exited s e => getty_parse_options P args g = .exited s e
      | .replaced => getty_parse_options P args g = .replaced
      | .undefined w => getty_parse_options P args g = .undefined w := by
  induction items with
  | nil =>
    intro more args g hpos hne hrest _ _
    simp only [cl_options, apply_options]
    exact ⟨g, rfl, by simp [cl_words], by simp [cl_operands], by simpa [cl_line] using hrest,
      by simp [cl_line], hpos⟩
  | cons it items ih =>
    intro more args g hpos hne hrest hwf hmode
    have hwf' : ∀ it' ∈ items, it'.well_formed := fun it' h => hwf it' (List.mem_cons_of_mem _ h)
    have hit := hwf it (List.mem_cons_self _ _)
    cases it with
    | operand w =>
      have hre : P.getopt_reorders = true := by
        rcases hmode with h | h
        · exact h
        · simp [cl_operands] at h
      have hw : is_nonoption w = true := hit
      have hrest' : g.rest = w :: (cl_line items ++ more) := by
        rw [hrest]; simp [cl_line, cl_item.words]
      rw [parse_options_skip P hre args g w _ hw hpos hrest']
      have := ih more args { g with skipped := g.skipped ++ [w], rest := cl_line items ++ more,
                                    optind := g.optind + 1 } hpos hne rfl hwf' (Or.inl hre)
      simp only [cl_options]
      cases happ : apply_options P args (cl_options items) with
      | ok a =>
        rw [happ] at this
        obtain ⟨g1, h1, h2, h3, h4, h5, h6⟩ := this
        refine ⟨g1, h1, h2, ?_, h4, ?_, h6⟩
        · rw [h3]; simp [cl_operands]
        · rw [h5]; simp only [cl_line, cl_item.words, List.length_append, List.length_cons,
            List.length_nil]; omega
      | exited s e => rw [happ] at this; exact this
      | replaced => rw [happ] at this; exact this
      | undefined u => rw [happ] at this; exact this
    | opt o =>
      have ho : o.well_formed := hit
      have hrest' : g.rest = o.words ++ (cl_line items ++ more) := by
        rw [hrest]; simp [cl_line, cl_item.words]
      have hget := getopt_at_option P.getopt_reorders g o _ ho hpos hne hrest'
      rw [parse_options_step, hget]
      simp only
      rw [switch_known P g.argv o.flag _ args ho.1 o.arg o.joined rfl]
      simp only [cl_options, apply_options]
      cases happ1 : apply_option P args ⟨o.flag, o.arg, o.joined⟩ with
      | ok a1 =>
        simp only
        have hmode' : P.getopt_reorders = true ∨ cl_operands items = [] := by
          rcases hmode with h | h
          · exact Or.inl h
          · exact Or.inr (by simpa [cl_operands] using h)
        have := ih more a1 { g with scanned := g.scanned ++ o.words,
                                    rest := cl_line items ++ more,
                                    optind := g.optind + o.words.length, optpos := 0,
                                    optarg := some o.arg } rfl (by simp [hne]) rfl hwf' hmode'
        cases happ : apply_options P a1 (cl_options items) with
        | ok a =>
          rw [happ] at this
          obtain ⟨g1, h1, h2, h3, h4, h5, h6⟩ := this
          refine ⟨g1, h1, ?_, ?_, h4, ?_, h6⟩
          · rw [h2]; simp [cl_words]
          · rw [h3]; simp [cl_operands]
          · rw [h5]; simp only [cl_line, cl_item.words, List.length_append]; omega
        | exited s e => rw [happ] at this; exact this
        | replaced => rw [happ] at this; exact this
        | undefined u => rw [happ] at this; exact this
      | exited s e => rfl
      | replaced => rfl
      | undefined u => rfl


/-- The loop ends in front of `--` or of what remains: it returns the
configuration it holds, `optind` is the index of the first positional argument
and the positional arguments are the operands passed over and what remains. -/
theorem parse_options_end (P : platform) (args : getty_args) (g : getopt_state)
    (dashdash : Bool) (tail : List cstr) (hpos : g.optpos = 0) (hne : g.scanned ≠ [])
    (hinv : g.optind = g.scanned.length + g.skipped.length)
    (hsk : P.getopt_reorders = false → g.skipped = [])
    (hrest : g.rest = cl_separator dashdash ++ tail)
    (htail : dashdash = false →
      (P.getopt_reorders = true → tail = []) ∧ (∀ x ∈ tail.take 1, is_nonoption x = true)) :
    ∃ gf, getty_parse_options P args g = .ok (args, gf) ∧
      gf.optind = g.scanned.length + (cl_separator dashdash).length ∧
      gf.argv = g.scanned ++ (cl_separator dashdash ++ (g.skipped ++ tail)) := by
  rw [parse_options_step]
  cases dashdash with
  | true =>
    have hrest' : g.rest = ['-', '-'] :: tail := by rw [hrest]; simp [cl_separator]
    rw [getopt_at_dashdash P.getopt_reorders g tail hpos hne hrest']
    exact ⟨_, rfl, by simp [cl_separator], by simp [getopt_state.argv, cl_separator]⟩
  | false =>
    obtain ⟨ht1, ht2⟩ := htail rfl
    simp only [cl_separator, Bool.false_eq_true, if_false, List.nil_append,
      List.length_nil, Nat.add_zero] at hrest ⊢
    cases tail with
    | nil =>
      rw [getopt_at_end P.getopt_reorders g hpos hne hrest]
      refine ⟨_, rfl, ?_, by simp [getopt_state.argv, hrest]⟩
      simp only
      split
      · rename_i h; rw [hinv, h]; simp
      · rfl
    | cons x tail =>
      have hre : P.getopt_reorders = false := by
        cases h : P.getopt_reorders with
        | false => rfl
        | true => exact absurd (ht1 h) (by simp)
      have hx : is_nonoption x = true := ht2 x (by simp)
      rw [hre, getopt_at_operand g x tail hx hpos hne hrest]
      refine ⟨_, rfl, ?_, ?_⟩
      · simp only; rw [hinv, hsk hre]; simp
      · simp [getopt_state.argv, hrest, hsk hre]

theorem getD_after (pre t : List cstr) (k : Nat) :
    (pre ++ t).getD (pre.length + k) [] = t.getD k [] := by
  simp only [List.getD_eq_getElem?_getD]
  rw [List.getElem?_append_right (by omega)]
  congr 2
  omega

/-- The result of `getty_parse_args` on a readable command line, from the
outcome of its options and its positional arguments. -/
theorem parse_args_shape (P : platform) (gettyname : cstr) (items : List cl_item)
    (dashdash : Bool) (tail : List cstr)
    (hread : cl_readable P.getopt_reorders items dashdash tail) :
    getty_parse_args P (gettyname :: (cl_line items ++ (cl_separator dashdash ++ tail))) =
      match apply_options P getty_args_initial (cl_options items) with
      | .ok a =>
        (match cl_operands items ++ tail with
         | [] => .ok a
         | [x] => .ok { a with tty := x }
         | [x, y] => .ok { a with path := y, tty := x }
         | _ => .exited 1 [getty_usage (some gettyname)])
      | .exited s e => .exited s e
      | .replaced => .replaced
      | .undefined w => .undefined w := by
  obtain ⟨hwf, hmode, htail⟩ := hread
  have hmode' : P.getopt_reorders = true ∨ cl_operands items = [] := by
    cases h : P.getopt_reorders with
    | true => exact Or.inl rfl
    | false => exact Or.inr (hmode h)
  unfold getty_parse_args
  have hrun := parse_options_run P items (cl_separator dashdash ++ tail) getty_args_initial
    (getopt_start (gettyname :: (cl_line items ++ (cl_separator dashdash ++ tail))))
    rfl (by simp [getopt_start]) (by simp [getopt_start]) hwf hmode'
  cases happ : apply_options P getty_args_initial (cl_options items) with
  | exited s e => rw [happ] at hrun; rw [hrun]
  | replaced => rw [happ] at hrun; rw [hrun]
  | undefined w => rw [happ] at hrun; rw [hrun]
  | ok a =>
    rw [happ] at hrun
    obtain ⟨g1, h1, h2, h3, h4, h5, h6⟩ := hrun
    simp only [getopt_start, List.take_succ_cons, List.take_zero, List.nil_append] at h2 h3 h5
    have hne1 : g1.scanned ≠ [] := by rw [h2]; simp
    have hinv1 : g1.optind = g1.scanned.length + g1.skipped.length := by
      rw [h5, h2, h3, cl_line_length]
      simp only [List.length_append, List.length_cons, List.length_nil]
      omega
    have hsk1 : P.getopt_reorders = false → g1.skipped = [] := by
      intro h; rw [h3, hmode h]
    obtain ⟨gf, hf1, hf2, hf3⟩ := parse_options_end P a g1 dashdash tail h6 hne1 hinv1 hsk1 h4 htail
    rw [h1, hf1]
    simp only
    have hidx : ∀ k, gf.argv.getD (gf.optind + k) [] = (cl_operands items ++ tail).getD k [] := by
      intro k
      rw [hf3, hf2, h3, ← List.append_assoc, ← List.length_append, getD_after]
    have hidx0 := hidx 0
    have hidx1 := hidx 1
    simp only [Nat.add_zero] at hidx0
    have hn : (((gettyname :: (cl_line items ++ (cl_separator dashdash ++ tail))).length : Nat) : Int)
        - ((gf.optind : Nat) : Int) = (((cl_operands items ++ tail).length : Nat) : Int) := by
      rw [hf2, h2]
      simp only [List.length_append, List.length_cons, List.length_nil, cl_line_length]
      push_cast
      ring
    have hhead : (gettyname :: (cl_line items ++ (cl_separator dashdash ++ tail))).head? =
        some gettyname := rfl
    rw [hidx0, hidx1, hn, hhead]
    rcases cl_operands items ++ tail with _ | ⟨x, _ | ⟨y, _ | ⟨z, t⟩⟩⟩
    · simp
    · simp
    · simp
    · simp only [List.length_cons]
      rw [if_neg (by push_cast; omega), if_neg (by push_cast; omega), if_neg (by push_cast; omega)]

/-! ## The options and the configuration -/

theorem apply_option_i (P : platform) (args : getty_args) (r : cstr) (j : Bool) (speed : Nat)
    (h : rate_accepted P r speed) :
    apply_option P args ⟨'i', r, j⟩ = .ok { args with ispeed := speed } := by
  unfold apply_option getty_parse_switch
  simp [h args.ispeed]

theorem apply_option_o (P : platform) (args : getty_args) (r : cstr) (j : Bool) (speed : Nat)
    (h : rate_accepted P r speed) :
    apply_option P args ⟨'o', r, j⟩ = .ok { args with ospeed := speed } := by
  unfold apply_option getty_parse_switch
  simp [h args.ospeed]

theorem apply_option_u (P : platform) (args : getty_args) (a : cstr) (j : Bool) :
    apply_option P args ⟨'u', a, j⟩ = .ok { args with logname := some a } := by
  unfold apply_option getty_parse_switch
  simp

theorem apply_option_p (P : platform) (args : getty_args) (a : cstr) (j : Bool) :
    apply_option P args ⟨'p', a, j⟩ = .ok { args with path := a } := by
  unfold apply_option getty_parse_switch
  simp

/-- The message with which `errx` reports a refused rate. -/
theorem apply_option_refused (P : platform) (args : getty_args) (o : cl_option)
    (hf : o.flag = 'i' ∨ o.flag = 'o') (h : rate_refused P o.arg) :
    apply_option P args o =
      .exited 1 [⟨"errx",
        if o.flag = 'i' then "Unable to parse input speed %s"
        else "Unable to parse output speed %s", [.str (some o.arg)]⟩] := by
  obtain ⟨f, r, j⟩ := o
  simp only at hf h ⊢
  unfold apply_option getty_parse_switch
  rcases hf with hf | hf
  · subst hf; simp [h args.ispeed]
  · subst hf; simp [h args.ospeed]

theorem rate_accepted_unique (P : platform) (r : cstr) (s s' : Nat)
    (h : rate_accepted P r s) (h' : rate_accepted P r s') : s = s' := by
  have := (h 0).symm.trans (h' 0)
  simpa using this

theorem cl_options_well_formed (items : List cl_item) (hwf : ∀ it ∈ items, it.well_formed) :
    ∀ o ∈ cl_options items, o.well_formed := by
  induction items with
  | nil => intro o ho; simp [cl_options] at ho
  | cons it items ih =>
    have hwf' : ∀ it' ∈ items, it'.well_formed := fun it' h => hwf it' (List.mem_cons_of_mem _ h)
    cases it with
    | opt o1 =>
      intro o ho
      simp only [cl_options, List.mem_cons] at ho
      rcases ho with h | h
      · rw [h]; exact hwf (.opt o1) (List.mem_cons_self _ _)
      · exact ih hwf' o h
    | operand w =>
      intro o ho
      simp only [cl_options] at ho
      exact ih hwf' o ho

/-- What the options make of the configuration when every rate is accepted:
the line name is untouched; the path, the identity and each speed are those
of the last option that names them, and untouched when none does. -/
theorem apply_options_accepted (P : platform) (opts : List cl_option) :
    ∀ args : getty_args, (∀ o ∈ opts, o.well_formed) → rates_accepted P opts →
      ∃ a, apply_options P args opts = .ok a ∧ a.tty = args.tty ∧
        a.path = (last_arg 'p' opts).getD args.path ∧
        a.logname = (match last_arg 'u' opts with
          | some u => some u
          | none => args.logname) ∧
        (∀ r s, last_arg 'i' opts = some r → rate_accepted P r s → a.ispeed = s) ∧
        (last_arg 'i' opts = none → a.ispeed = args.ispeed) ∧
        (∀ r s, last_arg 'o' opts = some r → rate_accepted P r s → a.ospeed = s) ∧
        (last_arg 'o' opts = none → a.ospeed = args.ospeed) := by
  induction opts with
  | nil =>
    intro args _ _
    exact ⟨args, rfl, rfl, rfl, rfl, by simp [last_arg], fun _ => rfl, by simp [last_arg],
      fun _ => rfl⟩
  | cons o os ih =>
    intro args hwf hrate
    obtain ⟨hf, _⟩ := hwf o (List.mem_cons_self o os)
    have hwf' : ∀ o' ∈ os, o'.well_formed := fun o' h => hwf o' (List.mem_cons_of_mem o h)
    have hrate' : rates_accepted P os := fun o' h => hrate o' (List.mem_cons_of_mem o h)
    have hr := hrate o (List.mem_cons_self o os)
    obtain ⟨f, r, j⟩ := o
    simp only at hf hr
    rcases hf with h | h | h | h
    · subst h
      obtain ⟨speed, hs⟩ := hr (Or.inl rfl)
      obtain ⟨a, h2, h2tty, h2path, h2u, h2i, h2i0, h2o, h2o0⟩ :=
        ih { args with ispeed := speed } hwf' hrate'
      refine ⟨a, ?_, h2tty, ?_, ?_, ?_, ?_, ?_, ?_⟩
      · simp only [apply_options, apply_option_i P args r j speed hs]; exact h2
      · rw [h2path]; simp only [last_arg]
        cases last_arg 'p' os <;> simp
      · rw [h2u]; simp only [last_arg]
        cases last_arg 'u' os <;> simp
      · intro r' s' hl hacc
        simp only [last_arg] at hl
        cases hl' : last_arg 'i' os with
        | some x => rw [hl'] at hl; simp at hl; subst hl; exact h2i _ _ hl' hacc
        | none =>
          rw [hl'] at hl; simp at hl; subst hl
          rw [h2i0 hl']
          exact rate_accepted_unique P _ _ _ hs hacc
      · intro hl
        simp only [last_arg] at hl
        cases hl' : last_arg 'i' os <;> rw [hl'] at hl <;> simp at hl
      · intro r' s' hl hacc
        simp only [last_arg] at hl
        cases hl' : last_arg 'o' os with
        | some x => rw [hl'] at hl; simp at hl; subst hl; exact h2o _ _ hl' hacc
        | none => rw [hl'] at hl; simp at hl
      · intro hl
        simp only [last_arg] at hl
        cases hl' : last_arg 'o' os with
        | some x => rw [hl'] at hl; simp at hl
        | none => rw [h2o0 hl']
    · subst h
      obtain ⟨speed, hs⟩ := hr (Or.inr rfl)
      obtain ⟨a, h2, h2tty, h2path, h2u, h2i, h2i0, h2o, h2o0⟩ :=
        ih { args with ospeed := speed } hwf' hrate'
      refine ⟨a, ?_, h2tty, ?_, ?_, ?_, ?_, ?_, ?_⟩
      · simp only [apply_options, apply_option_o P args r j speed hs]; exact h2
      · rw [h2path]; simp only [last_arg]
        cases last_arg 'p' os <;> simp
      · rw [h2u]; simp only [last_arg]
        cases last_arg 'u' os <;> simp
      · intro r' s' hl hacc
        simp only [last_arg] at hl
        cases hl' : last_arg 'i' os with
        | some x => rw [hl'] at hl; simp at hl; subst hl; exact h2i _ _ hl' hacc
        | none => rw [hl'] at hl; simp at hl
      · intro hl
        simp only [last_arg] at hl
        cases hl' : last_arg 'i' os with
        | some x => rw [hl'] at hl; simp at hl
        | none => rw [h2i0 hl']
      · intro r' s' hl hacc
        simp only [last_arg] at hl
        cases hl' : last_arg 'o' os with
        | some x => rw [hl'] at hl; simp at hl; subst hl; exact h2o _ _ hl' hacc
        | none =>
          rw [hl'] at hl; simp at hl; subst hl
          rw [h2o0 hl']
          exact rate_accepted_unique P _ _ _ hs hacc
      · intro hl
        simp only [last_arg] at hl
        cases hl' : last_arg 'o' os <;> rw [hl'] at hl <;> simp at hl
    · subst h
      obtain ⟨a, h2, h2tty, h2path, h2u, h2i, h2i0, h2o, h2o0⟩ :=
        ih { args with logname := some r } hwf' hrate'
      refine ⟨a, ?_, h2tty, ?_, ?_, ?_, ?_, ?_, ?_⟩
      · simp only [apply_options, apply_option_u P args r j]; exact h2
      · rw [h2path]; simp only [last_arg]
        cases last_arg 'p' os <;> simp
      · rw [h2u]; simp only [last_arg]
        cases last_arg 'u' os <;> simp
      · intro r' s' hl hacc
        simp only [last_arg] at hl
        cases hl' : last_arg 'i' os with
        | some x => rw [hl'] at hl; simp at hl; subst hl; exact h2i _ _ hl' hacc
        | none => rw [hl'] at hl; simp at hl
      · intro hl
        simp only [last_arg] at hl
        cases hl' : last_arg 'i' os with
        | some x => rw [hl'] at hl; simp at hl
        | none => rw [h2i0 hl']
      · intro r' s' hl hacc
        simp only [last_arg] at hl
        cases hl' : last_arg 'o' os with
        | some x => rw [hl'] at hl; simp at hl; subst hl; exact h2o _ _ hl' hacc
        | none => rw [hl'] at hl; simp at hl
      · intro hl
        simp only [last_arg] at hl
        cases hl' : last_arg 'o' os with
        | some x => rw [hl'] at hl; simp at hl
        | none => rw [h2o0 hl']
    · subst h
      obtain ⟨a, h2, h2tty, h2path, h2u, h2i, h2i0, h2o, h2o0⟩ :=
        ih { args with path := r } hwf' hrate'
      refine ⟨a, ?_, h2tty, ?_, ?_, ?_, ?_, ?_, ?_⟩
      · simp only [apply_options, apply_option_p P args r j]; exact h2
      · rw [h2path]; simp only [last_arg]
        cases last_arg 'p' os <;> simp
      · rw [h2u]; simp only [last_arg]
        cases last_arg 'u' os <;> simp
      · intro r' s' hl hacc
        simp only [last_arg] at hl
        cases hl' : last_arg 'i' os with
        | some x => rw [hl'] at hl; simp at hl; subst hl; exact h2i _ _ hl' hacc
        | none => rw [hl'] at hl; simp at hl
      · intro hl
        simp only [last_arg] at hl
        cases hl' : last_arg 'i' os with
        | some x => rw [hl'] at hl; simp at hl
        | none => rw [h2i0 hl']
      · intro r' s' hl hacc
        simp only [last_arg] at hl
        cases hl' : last_arg 'o' os with
        | some x => rw [hl'] at hl; simp at hl; subst hl; exact h2o _ _ hl' hacc
        | none => rw [hl'] at hl; simp at hl
      · intro hl
        simp only [last_arg] at hl
        cases hl' : last_arg 'o' os with
        | some x => rw [hl'] at hl; simp at hl
        | none => rw [h2o0 hl']

/-- C6, as stated, fails: `getty -p /bin/sh` has no positional argument and is
accepted, and its program path is `/bin/sh`, not the default `/bin/login`. -/
theorem getty_parse_args_p_without_positionals :
    getty_parse_args linux_lp64 ["getty".toList, "-p".toList, "/bin/sh".toList] =
      .ok ⟨none, "/bin/sh".toList, "tty".toList, 0, 0⟩ :=
  parse_args_shape linux_lp64 "getty".toList [.opt ⟨'p', "/bin/sh".toList, false⟩] false []
    (by decide)

/-- On a readable command line whose rates are accepted and that has at most
two positional arguments, `getty_parse_args` returns a configuration. Its line
name is the first positional argument, `tty` when there is none. Its program
path is the second positional argument when there are two; otherwise it is
the argument of the last `-p`, and `/bin/login` when no `-p` is given. -/
theorem parse_args_accepts (P : platform) (gettyname : cstr) (items : List cl_item)
    (dashdash : Bool) (tail : List cstr)
    (hread : cl_readable P.getopt_reorders items dashdash tail)
    (hrate : rates_accepted P (cl_options items))
    (hlen : (cl_operands items ++ tail).length ≤ 2) :
    ∃ args,
      getty_parse_args P (gettyname :: (cl_line items ++ (cl_separator dashdash ++ tail))) =
        .ok args ∧
      args.tty = (match cl_operands items ++ tail with
        | [] => "tty".toList
        | x :: _ => x) ∧
      args.path = (match cl_operands items ++ tail with
        | [_, y] => y
        | _ => (last_arg 'p' (cl_options items)).getD "/bin/login".toList) := by
  obtain ⟨a, ha, hatty, hapath, _⟩ := apply_options_accepted P (cl_options items)
    getty_args_initial (cl_options_well_formed items hread.1) hrate
  rw [parse_args_shape P gettyname items dashdash tail hread, ha]
  generalize cl_operands items ++ tail = pos at hlen ⊢
  rcases pos with _ | ⟨x, _ | ⟨y, _ | ⟨z, t⟩⟩⟩
  · exact ⟨a, rfl, hatty, hapath⟩
  · exact ⟨_, rfl, rfl, hapath⟩
  · exact ⟨_, rfl, rfl, rfl⟩
  · simp at hlen

/-- The command line `getty ttyS0 -p /bin/sh -i9600 /bin/bash`, with an
operand in front of the options, is accepted where `getopt` reorders. -/
theorem parse_args_accepts_example :
    ∃ args,
      getty_parse_args linux_lp64
        ["getty".toList, "ttyS0".toList, "-p".toList, "/bin/sh".toList, "-i9600".toList,
         "/bin/bash".toList] = .ok args ∧
      args.tty = "ttyS0".toList ∧ args.path = "/bin/bash".toList :=
  parse_args_accepts linux_lp64 "getty".toList
    [.operand "ttyS0".toList, .opt ⟨'p', "/bin/sh".toList, false⟩,
     .opt ⟨'i', "9600".toList, true⟩, .operand "/bin/bash".toList] false [] (by decide)
    (by
      intro o ho h
      simp only [cl_options, List.mem_cons, List.mem_singleton, List.not_mem_nil,
        or_false] at ho
      rcases ho with rfl | rfl
      · exact absurd h (by decide)
      · exact ⟨13, table_rate_accepted linux_lp64 (by decide) ⟨13, 9600⟩ (by decide)⟩)
    (by decide)

/-! ## Speed options -/

/-- C7, on the configuration of a command line without options, with a
driver at `B9600`. -/
theorem getty_setup_keeps_attributes_witness :
    getty_parse_args linux_lp64 ["getty".toList] = .ok getty_args_initial ∧
      getty_setup_speeds linux_lp64 getty_args_initial ⟨1, 2, 3, 4, [5], 13, 13⟩ =
        ⟨1, 2, 3, 4, [5], 13, 13⟩ ∧
      syscall.tcsetattr_TCSANOW 0 ⟨1, 2, 3, 4, [5], 13, 13⟩ ∈
        (getty_setup linux_lp64 os_all_succeed getty_args_initial).calls :=
  have h := getty_setup_keeps_attributes linux_lp64 os_all_succeed getty_args_initial
    ⟨1, 2, 3, 4, [5], 13, 13⟩ rfl rfl rfl
  ⟨parse_args_shape linux_lp64 "getty".toList [] false [] (by decide),
    h.1, h.2.2 rfl rfl rfl⟩

/-! ## Usage errors and refused rates -/

theorem main_of_parse_exit (P : platform) (os : os_replies) (execv_fails : Bool)
    (argv : List cstr) (stderr : List diagnostic)
    (h : getty_parse_args P argv = .exited 1 stderr) :
    exits_in_parse_args P os execv_fails argv stderr := by
  refine ⟨h, ?_⟩
  unfold getty_main
  rw [h]

/-- The loop in front of what follows the items of a command line whose rates
are accepted: the state `getopt` is in, with the program name still first. -/
theorem parse_options_prefix (P : platform) (gettyname : cstr) (items : List cl_item)
    (more : List cstr) (hwf : ∀ it ∈ items, it.well_formed)
    (hscan : P.getopt_reorders = true ∨ cl_operands items = [])
    (hrate : rates_accepted P (cl_options items)) :
    ∃ a g1,
      getty_parse_options P getty_args_initial
          (getopt_start (gettyname :: (cl_line items ++ more))) =
        getty_parse_options P a g1 ∧
      g1.rest = more ∧ g1.optpos = 0 ∧ g1.scanned ≠ [] ∧ g1.argv.head? = some gettyname := by
  obtain ⟨a, ha, _⟩ := apply_options_accepted P (cl_options items) getty_args_initial
    (cl_options_well_formed items hwf) hrate
  have hrun := parse_options_run P items more getty_args_initial
    (getopt_start (gettyname :: (cl_line items ++ more)))
    rfl (by simp [getopt_start]) (by simp [getopt_start]) hwf hscan
  rw [ha] at hrun
  obtain ⟨g1, h1, h2, _, h4, _, h6⟩ := hrun
  simp only [getopt_start, List.take_succ_cons, List.take_zero] at h2
  refine ⟨a, g1, h1, h4, h6, by rw [h2]; simp, ?_⟩
  simp [getopt_state.argv, h2]

/-- After items whose rates are accepted, an element that starts with a
character that is no flag ends the process with the usage message. -/
theorem parse_args_unknown_flag (P : platform) (gettyname : cstr) (items : List cl_item)
    (hwf : ∀ it ∈ items, it.well_formed)
    (hscan : P.getopt_reorders = true ∨ cl_operands items = [])
    (hrate : rates_accepted P (cl_options items))
    (c : Char) (r : cstr) (rest : List cstr)
    (hc : c ≠ 'i' ∧ c ≠ 'o' ∧ c ≠ 'u' ∧ c ≠ 'p') (hdd : ¬ (c = '-' ∧ r = [])) :
    getty_parse_args P (gettyname :: (cl_line items ++ ('-' :: c :: r) :: rest)) =
      .exited 1 [⟨"warnx", "Unknown argument -%c", [.chr '?']⟩,
        getty_usage (some gettyname)] := by
  obtain ⟨a, g1, h1, hrest, hpos, hne, hhead⟩ :=
    parse_options_prefix P gettyname items (('-' :: c :: r) :: rest) hwf hscan hrate
  obtain ⟨g2, hg2⟩ := getopt_at_unknown P.getopt_reorders g1 c r rest hc hdd hpos hne hrest
  unfold getty_parse_args
  rw [h1, parse_options_step, hg2]
  simp [getty_parse_switch, hhead]

/-- After items whose rates are accepted, a flag alone in the last element
ends the process with the usage message. -/
theorem parse_args_missing_argument (P : platform) (gettyname : cstr) (items : List cl_item)
    (hwf : ∀ it ∈ items, it.well_formed)
    (hscan : P.getopt_reorders = true ∨ cl_operands items = [])
    (hrate : rates_accepted P (cl_options items))
    (f : Char) (hf : f = 'i' ∨ f = 'o' ∨ f = 'u' ∨ f = 'p') :
    getty_parse_args P (gettyname :: (cl_line items ++ [['-', f]])) =
      .exited 1 [⟨"warnx", "-%c: Missing argument", [.chr f]⟩,
        getty_usage (some gettyname)] := by
  obtain ⟨a, g1, h1, hrest, hpos, hne, hhead⟩ :=
    parse_options_prefix P gettyname items [['-', f]] hwf hscan hrate
  obtain ⟨g2, hg2, hopt⟩ := getopt_at_missing P.getopt_reorders g1 f hf hpos hne hrest
  unfold getty_parse_args
  rw [h1, parse_options_step, hg2]
  simp [getty_parse_switch, hhead, hopt]

/-- After items whose rates are accepted, an `-i` or `-o` option with a
refused rate ends the process with the message of `errx`, whatever follows. -/
theorem parse_args_refused_rate (P : platform) (gettyname : cstr) (items : List cl_item)
    (hwf : ∀ it ∈ items, it.well_formed)
    (hscan : P.getopt_reorders = true ∨ cl_operands items = [])
    (hrate : rates_accepted P (cl_options items))
    (bad : cl_option) (rest : List cstr) (hbad : bad.well_formed)
    (hf : bad.flag = 'i' ∨ bad.flag = 'o') (href : rate_refused P bad.arg) :
    getty_parse_args P (gettyname :: (cl_line items ++ (bad.words ++ rest))) =
      .exited 1 [⟨"errx",
        if bad.flag = 'i' then "Unable to parse input speed %s"
        else "Unable to parse output speed %s", [.str (some bad.arg)]⟩] := by
  obtain ⟨a, g1, h1, hrest, hpos, hne, _⟩ :=
    parse_options_prefix P gettyname items (bad.words ++ rest) hwf hscan hrate
  have hget := getopt_at_option P.getopt_reorders g1 bad rest hbad hpos hne hrest
  unfold getty_parse_args
  rw [h1, parse_options_step, hget]
  simp only
  rw [switch_known P g1.argv bad.flag _ a hbad.1 bad.arg bad.joined rfl,
    apply_option_refused P a bad hf href]

/-- The rate string `7` is refused. -/
theorem rate_7_refused : rate_refused linux_lp64 "7".toList := by
  intro before
  exact getty_speed_digits_between linux_lp64 (by decide) _ (by decide) (by decide) 1 ⟨1, 50⟩
    (by decide) (by decide)
    (by
      intro j a hj hja
      have hj0 : j = 0 := by omega
      subst hj0
      have : a = ⟨0, 0⟩ := by
        have h0 : (baudrates linux_lp64)[0]? = some ⟨0, 0⟩ := by decide
        rw [h0] at hja
        exact (Option.some.inj hja).symm
      subst this
      decide)
    before

/-- C9, as stated, fails: `getty -i 7 -x` contains the unknown flag `-x`, yet
the process ends on the refused rate of `-i`, with status 1 and the one
message of `errx`; the usage message is not printed. -/
theorem getty_parse_args_bad_rate_before_unknown_flag :
    getty_parse_args linux_lp64 ["getty".toList, "-i".toList, "7".toList, "-x".toList] =
      .exited 1 [⟨"errx", "Unable to parse input speed %s", [.str (some "7".toList)]⟩] :=
  parse_args_refused_rate linux_lp64 "getty".toList [] (by decide) (by decide)
    (by intro o ho; simp [cl_options] at ho) ⟨'i', "7".toList, false⟩ ["-x".toList]
    (by decide) (by decide) rate_7_refused

/-- C9, amended. Take a command line that starts with well-formed options
whose rates are accepted and, where `getopt` reorders, operands among them.
If there follows an element with an unknown flag, or a known flag without
argument as the last element, or if the line ends there (or goes on after
`--`) with more than two positional arguments, `getty_parse_args` returns no
configuration: it prints the usage message and the process exits with status
1 before `main` has made any call, so before any device is opened. If there
follows an `-i` or `-o` option whose rate is refused, then, whatever comes
after it, the process exits with status 1 as early, with the message of
`errx` and without the usage message. -/
theorem getty_parse_args_usage (P : platform) (os : os_replies) (execv_fails : Bool)
    (gettyname : cstr) (items : List cl_item) (hwf : ∀ it ∈ items, it.well_formed)
    (hscan : P.getopt_reorders = true ∨ cl_operands items = [])
    (hrate : rates_accepted P (cl_options items)) :
    (∀ (c : Char) (r : cstr) (rest : List cstr),
      (c ≠ 'i' ∧ c ≠ 'o' ∧ c ≠ 'u' ∧ c ≠ 'p') → ¬ (c = '-' ∧ r = []) →
      exits_in_parse_args P os execv_fails
        (gettyname :: (cl_line items ++ ('-' :: c :: r) :: rest))
        [⟨"warnx", "Unknown argument -%c", [.chr '?']⟩, getty_usage (some gettyname)]) ∧
    (∀ f : Char, (f = 'i' ∨ f = 'o' ∨ f = 'u' ∨ f = 'p') →
      exits_in_parse_args P os execv_fails
        (gettyname :: (cl_line items ++ [['-', f]]))
        [⟨"warnx", "-%c: Missing argument", [.chr f]⟩, getty_usage (some gettyname)]) ∧
    (∀ (dashdash : Bool) (tail : List cstr),
      cl_readable P.getopt_reorders items dashdash tail →
      2 < (cl_operands items ++ tail).length →
      exits_in_parse_args P os execv_fails
        (gettyname :: (cl_line items ++ (cl_separator dashdash ++ tail)))
        [getty_usage (some gettyname)]) ∧
    (∀ (bad : cl_option) (rest : List cstr),
      bad.well_formed → (bad.flag = 'i' ∨ bad.flag = 'o') → rate_refused P bad.arg →
      exits_in_parse_args P os execv_fails
        (gettyname :: (cl_line items ++ (bad.words ++ rest)))
        [⟨"errx",
          if bad.flag = 'i' then "Unable to parse input speed %s"
          else "Unable to parse output speed %s", [.str (some bad.arg)]⟩]) := by
  refine ⟨?_, ?_, ?_, ?_⟩
  · intro c r rest hc hdd
    exact main_of_parse_exit P os execv_fails _ _
      (parse_args_unknown_flag P gettyname items hwf hscan hrate c r rest hc hdd)
  · intro f hf
    exact main_of_parse_exit P os execv_fails _ _
      (parse_args_missing_argument P gettyname items hwf hscan hrate f hf)
  · intro dashdash tail hread hlen
    apply main_of_parse_exit
    obtain ⟨a, ha, _⟩ := apply_options_accepted P (cl_options items) getty_args_initial
      (cl_options_well_formed items hwf) hrate
    rw [parse_args_shape P gettyname items dashdash tail hread, ha]
    generalize cl_operands items ++ tail = pos at hlen ⊢
    rcases pos with _ | ⟨x, _ | ⟨y, _ | ⟨z, t⟩⟩⟩
    · simp at hlen
    · simp at hlen
    · simp at hlen
    · rfl
  · intro bad rest hbad hf href
    exact main_of_parse_exit P os execv_fails _ _
      (parse_args_refused_rate P gettyname items hwf hscan hrate bad rest hbad hf href)

/-- C9, amended, with glibc, on `getty ttyS0 -u alice -x`,
`getty ttyS0 -u alice -p`, `getty a -u alice b c` and
`getty ttyS0 -u alice -o 7 -x`. -/
theorem getty_parse_args_usage_witness :
    exits_in_parse_args linux_lp64 os_all_succeed false
        ["getty".toList, "ttyS0".toList, "-u".toList, "alice".toList, "-x".toList]
        [⟨"warnx", "Unknown argument -%c", [.chr '?']⟩, getty_usage (some "getty".toList)] ∧
      exits_in_parse_args linux_lp64 os_all_succeed false
        ["getty".toList, "ttyS0".toList, "-u".toList, "alice".toList, "-p".toList]
        [⟨"warnx", "-%c: Missing argument", [.chr 'p']⟩, getty_usage (some "getty".toList)] ∧
      exits_in_parse_args linux_lp64 os_all_succeed false
        ["getty".toList, "a".toList, "-u".toList, "alice".toList, "b".toList, "c".toList]
        [getty_usage (some "getty".toList)] ∧
      exits_in_parse_args linux_lp64 os_all_succeed false
        ["getty".toList, "ttyS0".toList, "-u".toList, "alice".toList, "-o".toList, "7".toList,
         "-x".toList]
        [⟨"errx", "Unable to parse output speed %s", [.str (some "7".toList)]⟩] :=
  have hrate : ∀ items : List cl_item,
      cl_options items = [⟨'u', "alice".toList, false⟩] →
      rates_accepted linux_lp64 (cl_options items) := by
    intro items h o ho hf
    rw [h] at ho
    simp only [List.mem_singleton] at ho
    subst ho
    exact absurd hf (by decide)
  have h := getty_parse_args_usage linux_lp64 os_all_succeed false "getty".toList
    [.operand "ttyS0".toList, .opt ⟨'u', "alice".toList, false⟩] (by decide) (by decide)
    (hrate _ rfl)
  have h3 := (getty_parse_args_usage linux_lp64 os_all_succeed false "getty".toList
    [.operand "a".toList, .opt ⟨'u', "alice".toList, false⟩, .operand "b".toList,
     .operand "c".toList] (by decide) (by decide) (hrate _ rfl)).2.2.1 false []
    (by decide) (by decide)
  ⟨h.1 'x' [] [] (by decide) (by decide), h.2.1 'p' (by decide), h3,
    h.2.2.2 ⟨'o', "7".toList, false⟩ ["-x".toList] (by decide) (by decide) rate_7_refused⟩

/-- A command line without `-i` and `-o` yields a configuration whose two
speeds are 0. -/
theorem parse_args_without_speed_options (P : platform) (gettyname : cstr)
    (items : List cl_item) (dashdash : Bool) (tail : List cstr) (args : getty_args)
    (hread : cl_readable P.getopt_reorders items dashdash tail)
    (hup : ∀ o ∈ cl_options items, o.flag ≠ 'i' ∧ o.flag ≠ 'o')
    (h : getty_parse_args P (gettyname :: (cl_line items ++ (cl_separator dashdash ++ tail))) =
      .ok args) :
    args.ispeed = 0 ∧ args.ospeed = 0 := by
  have hnone : ∀ (f : Char) (opts : List cl_option), (∀ o ∈ opts, o.flag ≠ f) →
      last_arg f opts = none := by
    intro f opts
    induction opts with
    | nil => intro _; rfl
    | cons o os ih =>
      intro hno
      simp only [last_arg, ih (fun o' h' => hno o' (List.mem_cons_of_mem _ h'))]
      simp [hno o (List.mem_cons_self _ _)]
  obtain ⟨a, ha, _, _, _, _, hi0, _, ho0⟩ := apply_options_accepted P (cl_options items)
    getty_args_initial (cl_options_well_formed items hread.1)
    (fun o hmem hf => by
      rcases hf with hf | hf
      · exact absurd hf (hup o hmem).1
      · exact absurd hf (hup o hmem).2)
  have hi' := hi0 (hnone 'i' _ (fun o hmem => (hup o hmem).1))
  have ho' := ho0 (hnone 'o' _ (fun o hmem => (hup o hmem).2))
  rw [parse_args_shape P gettyname items dashdash tail hread, ha] at h
  generalize cl_operands items ++ tail = pos at h
  rcases pos with _ | ⟨x, _ | ⟨y, _ | ⟨z, t⟩⟩⟩
  · simp only [final.ok.injEq] at h; subst h; exact ⟨hi', ho'⟩
  · simp only [final.ok.injEq] at h; subst h; exact ⟨hi', ho'⟩
  · simp only [final.ok.injEq] at h; subst h; exact ⟨hi', ho'⟩
  · cases h

/-! ## Every accepted command line is readable -/

/-- The `switch` goes on to the next option only for a flag getty knows. -/
theorem switch_ok_inv (P : platform) (argv : List cstr) (c : Char) (g : getopt_state)
    (args a : getty_args) (h : getty_parse_switch P argv c g args = .ok a) :
    c = 'i' ∨ c = 'o' ∨ c = 'u' ∨ c = 'p' := by
  unfold getty_parse_switch at h
  by_contra hn
  simp only [not_or] at hn
  rw [if_neg hn.1, if_neg hn.2.1, if_neg hn.2.2.1, if_neg hn.2.2.2] at h
  split at h <;> cases h

/-- What `getopt` has read when, entering an element that is no operand, it
returns a flag getty knows; it does not return -1 there. -/
theorem getopt_short_inv (g g1 : getopt_state) (w : cstr) (more : List cstr)
    (r : Option Char) (hw : is_nonoption w = false)
    (h : getopt_short getty_optstring g w more 1 = (r, g1)) :
    r ≠ none ∧
      ∀ c, r = some c → (c = 'i' ∨ c = 'o' ∨ c = 'u' ∨ c = 'p') →
        ∃ o : cl_option, o.flag = c ∧ o.well_formed ∧ w :: more = o.words ++ g1.rest ∧
          g1.scanned = g.scanned ++ o.words ∧ g1.optpos = 0 ∧ g1.optarg = some o.arg := by
  obtain ⟨c0, c1, w', rfl, rfl⟩ : ∃ c0 c1 w', w = c0 :: c1 :: w' ∧ c0 = '-' := by
    cases w with
    | nil => simp [is_nonoption] at hw
    | cons c0 w =>
      cases w with
      | nil => simp [is_nonoption] at hw
      | cons c1 w' =>
        refine ⟨c0, c1, w', rfl, ?_⟩
        simpa [is_nonoption] using hw
  unfold getopt_short at h
  simp only [List.getElem?_cons_succ, List.getElem?_cons_zero] at h
  cases hl : optstring_lookup getty_optstring c1 with
  | none =>
    rw [hl] at h
    simp only [Prod.mk.injEq] at h
    refine ⟨by rw [← h.1]; simp, ?_⟩
    intro c hc hk
    rw [← h.1] at hc
    simp only [Option.some.injEq] at hc
    rcases hk with hk | hk | hk | hk <;> rw [hk] at hc <;> exact absurd hc (by decide)
  | some b =>
    rw [hl] at h
    cases b with
    | false =>
      simp only [Prod.mk.injEq] at h
      refine ⟨by rw [← h.1]; simp, ?_⟩
      intro c hc hk
      rw [← h.1] at hc
      simp only [Option.some.injEq] at hc
      rw [hc, lookup_known c hk] at hl
      cases hl
    | true =>
      simp only at h
      cases w' with
      | cons c2 w'' =>
        simp only [List.length_cons] at h
        rw [if_pos (by simp)] at h
        simp only [Prod.mk.injEq, List.drop_succ_cons, List.drop_zero] at h
        refine ⟨by rw [← h.1]; simp, ?_⟩
        intro c hc hk
        rw [← h.1] at hc
        simp only [Option.some.injEq] at hc
        subst hc
        refine ⟨⟨c1, c2 :: w'', true⟩, rfl, ⟨hk, by simp⟩, ?_, ?_, ?_, ?_⟩ <;>
          rw [← h.2] <;> simp [cl_option.words]
      | nil =>
        simp only [List.length_cons, List.length_nil, Nat.zero_add, Nat.reduceAdd,
          Nat.le_refl, decide_True, Bool.true_eq_false, if_false] at h
        cases more with
        | nil =>
          simp only [Prod.mk.injEq] at h
          refine ⟨by rw [← h.1]; simp, ?_⟩
          intro c hc hk
          rw [← h.1] at hc
          simp only [Option.some.injEq] at hc
          split at hc <;>
            (rcases hk with hk | hk | hk | hk <;> rw [hk] at hc <;> exact absurd hc (by decide))
        | cons a more1 =>
          simp only [Prod.mk.injEq] at h
          refine ⟨by rw [← h.1]; simp, ?_⟩
          intro c hc hk
          rw [← h.1] at hc
          simp only [Option.some.injEq] at hc
          subst hc
          refine ⟨⟨c1, a, false⟩, rfl, ⟨hk, by simp⟩, ?_, ?_, ?_, ?_⟩ <;>
            rw [← h.2] <;> simp [cl_option.words]

/-- When the option loop ends with a configuration, what lay in front of
`getopt` is a readable command line whose options all went through the
`switch`. -/
theorem parse_options_inv (P : platform) :
    ∀ (n : Nat) (args : getty_args) (g : getopt_state) (a : getty_args) (gf : getopt_state),
      g.rest.length = n → g.optpos = 0 → g.scanned ≠ [] →
      getty_parse_options P args g = .ok (a, gf) →
      ∃ (items : List cl_item) (dashdash : Bool) (tail : List cstr),
        g.rest = cl_line items ++ (cl_separator dashdash ++ tail) ∧
        cl_readable P.getopt_reorders items dashdash tail ∧
        apply_options P args (cl_options items) = .ok a := by
  intro n
  induction n using Nat.strong_induction_on with
  | _ n ih =>
    intro args g a gf hn hpos hne h
    cases hr : g.rest with
    | nil =>
      rw [parse_options_step, getopt_at_end P.getopt_reorders g hpos hne hr] at h
      simp only [final.ok.injEq, Prod.mk.injEq] at h
      exact ⟨[], false, [], by simp [cl_line, cl_separator], by simp [cl_readable, cl_operands],
        by rw [← h.1]; rfl⟩
    | cons w more =>
      by_cases hdd : w = ['-', '-']
      · subst hdd
        rw [parse_options_step, getopt_at_dashdash P.getopt_reorders g more hpos hne hr] at h
        simp only [final.ok.injEq, Prod.mk.injEq] at h
        exact ⟨[], true, more, by simp [cl_line, cl_separator],
          by simp [cl_readable, cl_operands], by rw [← h.1]; rfl⟩
      · cases hw : is_nonoption w with
        | true =>
          cases hre : P.getopt_reorders with
          | false =>
            rw [parse_options_step, hre, getopt_at_operand g w more hw hpos hne hr] at h
            simp only [final.ok.injEq, Prod.mk.injEq] at h
            exact ⟨[], false, w :: more, by simp [cl_line, cl_separator],
              by simp [cl_readable, cl_operands, hw], by rw [← h.1]; rfl⟩
          | true =>
            rw [parse_options_skip P hre args g w more hw hpos hr] at h
            obtain ⟨items, dd, tail, h1, h2, h3⟩ := ih more.length (by rw [← hn, hr]; simp) args
              { g with skipped := g.skipped ++ [w], rest := more, optind := g.optind + 1 }
              a gf rfl hpos hne h
            simp only at h1
            refine ⟨.operand w :: items, dd, tail, by simp [cl_line, cl_item.words, h1], ?_, ?_⟩
            · rw [hre] at h2
              obtain ⟨h2a, _, h2c⟩ := h2
              refine ⟨?_, by simp, h2c⟩
              intro it hit
              rcases List.mem_cons.mp hit with hit | hit
              · rw [hit]; exact hw
              · exact h2a it hit
            · simpa [cl_options] using h3
        | false =>
          have hget : getopt P.getopt_reorders getty_optstring g =
              getopt_short getty_optstring { g with optarg := none } w more 1 := by
            rw [getopt_front P.getopt_reorders g hpos hne (by rw [hr]; simpa using hw)]
            rw [hr]
            simp only [if_neg hdd]
          rw [parse_options_step, hget] at h
          cases hsh : getopt_short getty_optstring { g with optarg := none } w more 1 with
          | mk r g1 =>
            rw [hsh] at h
            obtain ⟨hrn, hinv⟩ := getopt_short_inv _ g1 w more r hw hsh
            cases r with
            | none => exact absurd rfl hrn
            | some c =>
              simp only at h
              cases hsw : getty_parse_switch P g.argv c g1 args with
              | exited s e => rw [hsw] at h; cases h
              | replaced => rw [hsw] at h; cases h
              | undefined u => rw [hsw] at h; cases h
              | ok args1 =>
                rw [hsw] at h
                simp only at h
                have hc := switch_ok_inv P g.argv c g1 args args1 hsw
                obtain ⟨o, hof, howf, hwords, hsc, hp1, harg⟩ := hinv c rfl hc
                have hlen : 0 < o.words.length := by
                  unfold cl_option.words; split <;> simp
                have hshort : g1.rest.length < n := by
                  have := congrArg List.length hwords
                  simp only [List.length_cons, List.length_append] at this
                  rw [← hn, hr]
                  simp only [List.length_cons]
                  omega
                obtain ⟨items, dd, tail, h1, h2, h3⟩ := ih g1.rest.length hshort args1 g1 a gf
                  rfl hp1 (by rw [hsc]; simp [hne]) h
                refine ⟨.opt o :: items, dd, tail, ?_, ?_, ?_⟩
                · rw [hwords, h1]; simp [cl_line, cl_item.words]
                · obtain ⟨h2a, h2b, h2c⟩ := h2
                  refine ⟨?_, by simpa [cl_operands] using h2b, h2c⟩
                  intro it hit
                  rcases List.mem_cons.mp hit with hit | hit
                  · rw [hit]; exact howf
                  · exact h2a it hit
                · simp only [cl_options, apply_options]
                  have hsw' : apply_option P args o = .ok args1 := by
                    rw [← hsw, ← hof]
                    exact (switch_known P g.argv o.flag g1 args (hof ▸ hc) o.arg o.joined
                      harg).symm
                  rw [hsw']
                  exact h3

/-- An empty `argv` ends the process with the usage message. -/
theorem parse_args_nil (P : platform) :
    getty_parse_args P [] = .exited 1 [getty_usage none] := by
  unfold getty_parse_args
  rw [parse_options_step]
  simp [getopt, getopt_start, getopt_state.argv]

/-- Every command line `getty_parse_args` accepts is a program name followed
by a readable command line. -/
theorem parse_args_inv (P : platform) (argv : List cstr) (args : getty_args)
    (h : getty_parse_args P argv = .ok args) :
    ∃ (gettyname : cstr) (items : List cl_item) (dashdash : Bool) (tail : List cstr),
      argv = gettyname :: (cl_line items ++ (cl_separator dashdash ++ tail)) ∧
      cl_readable P.getopt_reorders items dashdash tail := by
  cases argv with
  | nil => rw [parse_args_nil] at h; cases h
  | cons gettyname rest =>
    unfold getty_parse_args at h
    cases hloop : getty_parse_options P getty_args_initial (getopt_start (gettyname :: rest)) with
    | exited s e => rw [hloop] at h; cases h
    | replaced => rw [hloop] at h; cases h
    | undefined w => rw [hloop] at h; cases h
    | ok r =>
      obtain ⟨a, gf⟩ := r
      obtain ⟨items, dd, tail, hd, hread, _⟩ :=
        parse_options_inv P _ getty_args_initial (getopt_start (gettyname :: rest)) a gf rfl rfl
          (by simp [getopt_start]) hloop
      simp only [getopt_start, List.drop_succ_cons, List.drop_zero] at hd
      exact ⟨gettyname, items, dd, tail, by rw [hd], hread⟩

/-- An option that goes through the `switch` leaves the line name alone and
changes the path only when it is `-p`. -/
theorem apply_option_ok_inv (P : platform) (args a : getty_args) (o : cl_option)
    (h : apply_option P args o = .ok a) :
    a.tty = args.tty ∧ a.path = (if o.flag = 'p' then o.arg else args.path) := by
  unfold apply_option getty_parse_switch at h
  by_cases h1 : o.flag = 'i'
  · rw [if_pos h1] at h
    have hp : o.flag ≠ 'p' := by rw [h1]; decide
    split at h
    · cases h
    · split at h
      · cases h
      · simp only [final.ok.injEq] at h; subst h; simp [hp]
  · rw [if_neg h1] at h
    by_cases h2 : o.flag = 'o'
    · rw [if_pos h2] at h
      have hp : o.flag ≠ 'p' := by rw [h2]; decide
      split at h
      · cases h
      · split at h
        · cases h
        · simp only [final.ok.injEq] at h; subst h; simp [hp]
    · rw [if_neg h2] at h
      by_cases h3 : o.flag = 'u'
      · rw [if_pos h3] at h
        have hp : o.flag ≠ 'p' := by rw [h3]; decide
        simp only [final.ok.injEq] at h; subst h; simp [hp]
      · rw [if_neg h3] at h
        by_cases h4 : o.flag = 'p'
        · rw [if_pos h4] at h
          simp only [final.ok.injEq] at h; subst h; simp [h4]
        · rw [if_neg h4] at h
          split at h <;> cases h

theorem apply_options_ok_inv (P : platform) (opts : List cl_option) :
    ∀ args a : getty_args, apply_options P args opts = .ok a →
      a.tty = args.tty ∧ a.path = (last_arg 'p' opts).getD args.path := by
  induction opts with
  | nil =>
    intro args a h
    simp only [apply_options, final.ok.injEq] at h
    subst h
    exact ⟨rfl, rfl⟩
  | cons o os ih =>
    intro args a h
    simp only [apply_options] at h
    cases h1 : apply_option P args o with
    | ok a1 =>
      rw [h1] at h
      simp only at h
      obtain ⟨h1tty, h1path⟩ := apply_option_ok_inv P args a1 o h1
      obtain ⟨h2tty, h2path⟩ := ih a1 a h
      refine ⟨by rw [h2tty, h1tty], ?_⟩
      rw [h2path, h1path]
      simp only [last_arg]
      cases hl : last_arg 'p' os with
      | some x => simp
      | none => by_cases hp : o.flag = 'p' <;> simp [hp]
    | exited s e => rw [h1] at h; cases h
    | replaced => rw [h1] at h; cases h
    | undefined w => rw [h1] at h; cases h

/-- C6, amended. Every command line `getty_parse_args` accepts is a program
name followed by items (options, and operands among them where `getopt`
reorders), an optional `--` and remaining elements, read the way `getopt`
scans; and however it is read so, it has at most two positional arguments
(the operands and the remaining elements), the line name is the first of
them, `tty` when there is none, and the program path is the second of them
when there are two and otherwise the argument of the last `-p`, `/bin/login`
when no `-p` is given. -/
theorem getty_parse_args_positionals (P : platform) (argv : List cstr) (args : getty_args)
    (h : getty_parse_args P argv = .ok args) :
    (∃ (gettyname : cstr) (items : List cl_item) (dashdash : Bool) (tail : List cstr),
      argv = gettyname :: (cl_line items ++ (cl_separator dashdash ++ tail)) ∧
      cl_readable P.getopt_reorders items dashdash tail) ∧
    (∀ (gettyname : cstr) (items : List cl_item) (dashdash : Bool) (tail : List cstr),
      argv = gettyname :: (cl_line items ++ (cl_separator dashdash ++ tail)) →
      cl_readable P.getopt_reorders items dashdash tail →
      (cl_operands items ++ tail).length ≤ 2 ∧
      args.tty = (match cl_operands items ++ tail with
        | [] => "tty".toList
        | x :: _ => x) ∧
      args.path = (match cl_operands items ++ tail with
        | [_, y] => y
        | _ => (last_arg 'p' (cl_options items)).getD "/bin/login".toList)) := by
  constructor
  · exact parse_args_inv P argv args h
  · intro gettyname items dd tail hargv hread
    subst hargv
    rw [parse_args_shape P gettyname items dd tail hread] at h
    cases happ : apply_options P getty_args_initial (cl_options items) with
    | exited s e => rw [happ] at h; cases h
    | replaced => rw [happ] at h; cases h
    | undefined w => rw [happ] at h; cases h
    | ok a =>
      rw [happ] at h
      simp only at h
      obtain ⟨hatty, hapath⟩ := apply_options_ok_inv P (cl_options items) getty_args_initial a happ
      generalize cl_operands items ++ tail = pos at h ⊢
      rcases pos with _ | ⟨x, _ | ⟨y, _ | ⟨z, t⟩⟩⟩
      · simp only [final.ok.injEq] at h; subst h
        exact ⟨by simp, hatty, hapath⟩
      · simp only [final.ok.injEq] at h; subst h
        exact ⟨by simp, rfl, hapath⟩
      · simp only [final.ok.injEq] at h; subst h
        exact ⟨by simp, rfl, rfl⟩
      · cases h

/-- C6, amended, with glibc, on `getty ttyS0 -p /bin/sh -ualice`: one
positional argument, which is the line name though it stands in front of the
options; the path is the argument of `-p`. -/
theorem getty_parse_args_positionals_witness :
    ∃ args,
      getty_parse_args linux_lp64
        ["getty".toList, "ttyS0".toList, "-p".toList, "/bin/sh".toList, "-ualice".toList] =
        .ok args ∧
      args.tty = "ttyS0".toList ∧ args.path = "/bin/sh".toList :=
  have h : getty_parse_args linux_lp64
      ["getty".toList, "ttyS0".toList, "-p".toList, "/bin/sh".toList, "-ualice".toList] =
      .ok ⟨some "alice".toList, "/bin/sh".toList, "ttyS0".toList, 0, 0⟩ :=
    parse_args_shape linux_lp64 "getty".toList
      [.operand "ttyS0".toList, .opt ⟨'p', "/bin/sh".toList, false⟩,
       .opt ⟨'u', "alice".toList, true⟩] false [] (by decide)
  ⟨_, h, ((getty_parse_args_positionals linux_lp64 _ _ h).2 "getty".toList
    [.operand "ttyS0".toList, .opt ⟨'p', "/bin/sh".toList, false⟩,
     .opt ⟨'u', "alice".toList, true⟩] false [] rfl (by decide)).2⟩

end Getty
